import Mathlib

set_option maxHeartbeats 1000000

/-!
Shallow embedding of `src/ocr_dni_engine.py` (the text-to-record parsing core
of the Peruvian DNI OCR engine).  Strings are modelled as `List Char`; the
external collaborators (image enhancement, the PaddleOCR engine) are modelled
as parameters of the pipeline entry point.  Python code that can raise an
uncaught exception is modelled with the `Py` result type below.
-/

/-- Result of a Python computation: either a returned value or an uncaught
exception propagating to the caller. -/
inductive Py (α : Type) where
  | ok : α → Py α
  | exn : Py α
deriving DecidableEq, Repr

/-- Characters of a string literal (Python strings are modelled as `List Char`). -/
def str (s : String) : List Char := s.toList

/-- ASCII whitespace as recognized by Python's `str.strip`, the regex class
`\s` and `int()` (the full Python classes also contain rare non-ASCII
whitespace, which never occurs in the texts considered here). -/
def isPySpace (c : Char) : Bool :=
  c == ' ' || c == '\t' || c == '\n' || c == '\r' || c == '\x0b' || c == '\x0c'

/-- Word character for the regex word boundary `\b` (Python `re` in Unicode
mode: letters, digits and underscore; the accented Spanish letters that occur
on the cards are letters as well). -/
def isWordChar (c : Char) : Bool :=
  c.isAlphanum || c == '_' ||
  c == 'Á' || c == 'É' || c == 'Í' || c == 'Ó' || c == 'Ú' || c == 'Ñ' ||
  c == 'á' || c == 'é' || c == 'í' || c == 'ó' || c == 'ú' || c == 'ñ'

/-- Numeric value of a decimal digit character. -/
def dval (c : Char) : Nat := c.toNat - '0'.toNat

/-- Value of a list of decimal digit characters read in base 10. -/
def natval (l : List Char) : Nat := l.foldl (fun a c => 10 * a + dval c) 0

/-- Digit run of a Python integer literal: decimal digits, with single
underscores allowed between digits (as accepted by `int()`). -/
def parseDigitsGo (acc : Nat) : List Char → Option Nat
  | [] => some acc
  | c :: rest =>
    if c.isDigit then parseDigitsGo (10 * acc + dval c) rest
    else if c == '_' then
      match rest with
      | d :: rest1 => if d.isDigit then parseDigitsGo (10 * acc + dval d) rest1 else none
      | [] => none
    else none

/-- Parse a nonempty digit run (with optional internal underscores). -/
def parseDigits? : List Char → Option Nat
  | [] => none
  | c :: rest => if c.isDigit then parseDigitsGo (dval c) rest else none

/-- Python `str.strip()`: remove leading and trailing whitespace. -/
def pyStrip (s : List Char) : List Char :=
  ((s.dropWhile isPySpace).reverse.dropWhile isPySpace).reverse

/-- Python `int(s)`: optional surrounding whitespace, an optional sign, then a
nonempty digit run; `none` models a raised `ValueError`. -/
def pyInt? (s : List Char) : Option Int :=
  match pyStrip s with
  | '+' :: rest => (parseDigits? rest).map (fun n => (n : Int))
  | '-' :: rest => (parseDigits? rest).map (fun n => -(n : Int))
  | rest => (parseDigits? rest).map (fun n => (n : Int))

/-- A calendar date (used both for parsed birth dates and for the value of
`datetime.now()`, whose time-of-day component cancels in the day difference
used by the engine). -/
structure Date where
  year : Nat
  month : Nat
  day : Nat
deriving DecidableEq, Repr

/-- Gregorian leap year, as implemented by Python's `datetime`. -/
def isLeap (y : Nat) : Bool := (y % 4 == 0 && y % 100 != 0) || y % 400 == 0

/-- Lengths of the twelve months of year `y`. -/
def monthDays (y : Nat) : List Nat :=
  [31, if isLeap y then 29 else 28, 31, 30, 31, 30, 31, 31, 30, 31, 30, 31]

/-- Number of days in month `m` (1-12) of year `y`; 0 for out-of-range months. -/
def daysInMonth (y m : Nat) : Nat := (monthDays y).getD (m - 1) 0

/-- Days of year `y` before the first day of month `m`. -/
def daysBeforeMonth (y m : Nat) : Nat := ((monthDays y).take (m - 1)).sum

/-- Day count of a date from the epoch 0001-01-01 (proleptic Gregorian, the
calendar of Python's `datetime`); the difference of two such counts equals
`(a - b).days` for the corresponding `datetime` values. -/
def toDays (d : Date) : Nat :=
  365 * (d.year - 1) + (d.year - 1) / 4 + (d.year - 1) / 400 +
    daysBeforeMonth d.year d.month + (d.day - 1) - (d.year - 1) / 100

/-- Whether `datetime(y, m, d)` constructs successfully: year in
`MINYEAR..MAXYEAR = 1..9999`, month in 1..12, day in range for the month. -/
def validDate (y m d : Int) : Bool :=
  1 ≤ y && y ≤ 9999 && 1 ≤ m && m ≤ 12 && 1 ≤ d && d ≤ (daysInMonth y.toNat m.toNat : Int)

/-- The day-overflow step (lines 64-65) of the Date Corrector: if the day
part starts with `'3'` and its value exceeds 31, replace it with `'0'` plus
its second character.  The `int(dia)` of the test sits outside the `try`
block of `corregir_fecha_ocr`, so a day part that starts with `'3'` but is
not an integer literal raises an uncaught `ValueError` (`Py.exn`). -/
def fixDia (dia : List Char) : Py (List Char) :=
  if dia.take 1 == ['3'] then
    match pyInt? dia with
    | none => Py.exn
    | some v => Py.ok (if v > 31 then ['0'] ++ dia.drop 1 else dia)
  else Py.ok dia

/-- The Date Corrector `corregir_fecha_ocr` (lines 54-77 of
`src/ocr_dni_engine.py`), translated statement by statement: reject lengths
other than 8, slice day/month/year, apply the day-overflow fix (`fixDia`),
the month fix `19` to `10`, the year fixes `2062` to `2002` and `2919` to
`2019`, then validate with `datetime` (the `try/except` returning `None` on
failure) and render `dd/mm/yyyy`. -/
def corregir_fecha_ocr (fecha : List Char) : Py (Option (List Char)) :=
  if fecha.length ≠ 8 then Py.ok none
  else
    let dia := fecha.take 2
    let mes := (fecha.drop 2).take 2
    let anio := fecha.drop 4
    match fixDia dia with
    | Py.exn => Py.exn
    | Py.ok dia1 =>
      let mes1 := if mes == str "19" then str "10" else mes
      let anio1 := if anio == str "2062" then str "2002"
                   else if anio == str "2919" then str "2019" else anio
      match pyInt? anio1, pyInt? mes1, pyInt? dia1 with
      | some y, some m, some d =>
        if validDate y m d then Py.ok (some (dia1 ++ '/' :: mes1 ++ '/' :: anio1))
        else Py.ok none
      | _, _, _ => Py.ok none

/-- Match a pattern of characters case-insensitively (Python `re.IGNORECASE`
on the ASCII letters used in the anchor patterns) against a prefix of the
text, returning the remaining text on success. -/
def matchCI : List Char → List Char → Option (List Char)
  | [], s => some s
  | _ :: _, [] => none
  | p :: ps, c :: cs => if c == p || c == p.toLower then matchCI ps cs else none

/-- Match a pattern of characters exactly against a prefix of the text,
returning the remaining text on success. -/
def matchStr : List Char → List Char → Option (List Char)
  | [], s => some s
  | _ :: _, [] => none
  | p :: ps, c :: cs => if c == p then matchStr ps cs else none

/-- `re.search` scanning: try the pattern matcher `f` at every position of
the text, left to right, returning the first success. -/
def scanOpt (f : List Char → Option (List Char)) : List Char → Option (List Char)
  | [] => f []
  | c :: rest =>
    match f (c :: rest) with
    | some v => some v
    | none => scanOpt f rest

/-- `re.search` used only for its truth value: does the pattern recognizer
`f` succeed at some position of the text? -/
def scanB (f : List Char → Bool) : List Char → Bool
  | [] => f []
  | c :: rest => f (c :: rest) || scanB f rest

/-- One attempt of the pattern `DNI\s*(\d{8})` (case-insensitive) at the head
of the text: `DNI`, any run of whitespace, then eight digits, captured. -/
def tryDni (s : List Char) : Option (List Char) :=
  (matchCI (str "DNI") s).bind fun r =>
    if ((r.dropWhile isPySpace).take 8).length == 8 &&
        ((r.dropWhile isPySpace).take 8).all Char.isDigit then
      some ((r.dropWhile isPySpace).take 8)
    else none

/-- The raw document-number capture: `re.search(r'DNI\s*(\d{8})', texto, re.IGNORECASE)`. -/
def dniSearchRaw (t : List Char) : Option (List Char) := scanOpt tryDni t

/-- One attempt of the pattern `PER(\d{8})` (case-sensitive) at the head of the text. -/
def tryPer (s : List Char) : Option (List Char) :=
  (matchStr (str "PER") s).bind fun r =>
    if (r.take 8).length == 8 && (r.take 8).all Char.isDigit then some (r.take 8)
    else none

/-- The MRZ document-number capture: `re.search(r'PER(\d{8})', texto)`. -/
def perSearch (t : List Char) : Option (List Char) := scanOpt tryPer t

/-- The document-number extractor of `parsear_dni` (lines 88-95): raw capture,
then the leading-`00` correction that prefers the MRZ value when present. -/
def extractDni (t : List Char) : Option (List Char) :=
  match dniSearchRaw t with
  | none => none
  | some raw =>
    if (str "00").isPrefixOf raw then some ((perSearch t).getD raw) else some raw

/-- One attempt of the MRZ sex pattern `\d{6}([MF])\d{7}` at the head of the text. -/
def trySexo (s : List Char) : Option (List Char) :=
  let a := s.take 6
  if a.length == 6 && a.all Char.isDigit then
    match s.drop 6 with
    | c :: rest =>
      if c == 'M' || c == 'F' then
        let b := rest.take 7
        if b.length == 7 && b.all Char.isDigit then some [c] else none
      else none
    | [] => none
  else none

/-- The sex extractor: `re.search(r'\d{6}([MF])\d{7}', texto)`, capture group 1. -/
def sexoSearch (t : List Char) : Option (List Char) := scanOpt trySexo t

/-- Does a position of the line start `PRIMER\s*APELLIDO` (case-insensitive)? -/
def tryPrimerApellido (s : List Char) : Bool :=
  match matchCI (str "PRIMER") s with
  | none => false
  | some r => (matchCI (str "APELLIDO") (r.dropWhile isPySpace)).isSome

/-- `re.search(r'PRIMER\s*APELLIDO', linea, re.IGNORECASE)` as a truth value. -/
def hasPrimerApellido (l : List Char) : Bool := scanB tryPrimerApellido l

/-- Does a position of the line start `SEGUNDO[\.\s]*APELLIDO` (case-insensitive)? -/
def trySegundoApellido (s : List Char) : Bool :=
  match matchCI (str "SEGUNDO") s with
  | none => false
  | some r =>
    (matchCI (str "APELLIDO") (r.dropWhile (fun c => c == '.' || isPySpace c))).isSome

/-- `re.search(r'SEGUNDO[\.\s]*APELLIDO', linea, re.IGNORECASE)` as a truth value. -/
def hasSegundoApellido (l : List Char) : Bool := scanB trySegundoApellido l

/-- Does a position of the line start `PRE\s*NOMBRES?` (case-insensitive)?
For existence the optional trailing `S` is irrelevant, so `NOMBRE` is matched. -/
def tryPreNombre (s : List Char) : Bool :=
  match matchCI (str "PRE") s with
  | none => false
  | some r => (matchCI (str "NOMBRE") (r.dropWhile isPySpace)).isSome

/-- `re.search(r'PRE\s*NOMBRES?', linea, re.IGNORECASE)` as a truth value. -/
def hasPreNombre (l : List Char) : Bool := scanB tryPreNombre l

/-- Python `s.split(sep)` for a single-character separator. -/
def splitOnChar (sep : Char) : List Char → List (List Char)
  | [] => [[]]
  | c :: rest =>
    if c == sep then [] :: splitOnChar sep rest
    else
      match splitOnChar sep rest with
      | r :: rs => (c :: r) :: rs
      | [] => [[c]]

/-- Line 85: `[l.strip() for l in texto_ocr.split('\n') if l.strip()]`. -/
def linesOf (t : List Char) : List (List Char) :=
  ((splitOnChar '\n' t).map pyStrip).filter (fun l => !l.isEmpty)

/-- Does nothing word-like follow (a regex `\b` holds after a digit here iff
the next character, if any, is not a word character)? -/
def noWordAhead : List Char → Bool
  | [] => true
  | c :: _ => !isWordChar c

/-- Fuelled scan of `re.findall(r'\b(\d{8})\b', texto)`: at each position try
to match a word boundary, eight digits and a word boundary; on success emit
the match and resume after it, otherwise advance one character.  `prevWord`
records whether the character before the current position is a word
character (false at the start of the string). -/
def findall8Go : Nat → Bool → List Char → List (List Char)
  | 0, _, _ => []
  | _ + 1, _, [] => []
  | fuel + 1, prevWord, c :: rest =>
    let v := (c :: rest).take 8
    if !prevWord && v.length == 8 && v.all Char.isDigit && noWordAhead ((c :: rest).drop 8) then
      v :: findall8Go fuel true ((c :: rest).drop 8)
    else
      findall8Go fuel (isWordChar c) rest

/-- `re.findall(r'\b(\d{8})\b', texto)` (line 132). -/
def findall8 (t : List Char) : List (List Char) := findall8Go (t.length + 1) false t

/-- The character class `[A-ZÁÉÍÓÚÑ\s]` used to validate surname candidates. -/
def apellidoChar (c : Char) : Bool :=
  ('A' ≤ c && c ≤ 'Z') ||
  c == 'Á' || c == 'É' || c == 'Í' || c == 'Ó' || c == 'Ú' || c == 'Ñ' ||
  isPySpace c

/-- `re.match(r'^[A-ZÁÉÍÓÚÑ\s]+$', candidato)` as a truth value: the whole
line consists of at least one character of the class (candidate lines are
newline-free, so the `$` subtlety with a trailing newline does not arise). -/
def apellidoOk (cand : List Char) : Bool := !cand.isEmpty && cand.all apellidoChar

/-- The paternal-surname extractor (lines 98-104): the line after the first
`PRIMER APELLIDO` anchor, accepted only if it passes `apellidoOk`. -/
def extractApPaterno (lineas : List (List Char)) : Option (List Char) :=
  (lineas.findIdx? hasPrimerApellido).bind fun i =>
    (lineas[i + 1]?).bind fun cand =>
      if apellidoOk cand then some cand else none

/-- The maternal-surname extractor (lines 106-115): the line after the first
`SEGUNDO APELLIDO` anchor, with the catalogued misread `MUNEZ` replaced by
`NUNEZ` before validation. -/
def extractApMaterno (lineas : List (List Char)) : Option (List Char) :=
  (lineas.findIdx? hasSegundoApellido).bind fun i =>
    (lineas[i + 1]?).bind fun cand0 =>
      if apellidoOk (if cand0 == str "MUNEZ" then str "NUNEZ" else cand0) then
        some (if cand0 == str "MUNEZ" then str "NUNEZ" else cand0)
      else none

/-- The fixed catalog of common first names (line 123), in source order. -/
def nombresComunes : List (List Char) :=
  [str "MARIA", str "MONICA", str "JUAN", str "JOSE", str "LUIS", str "CARLOS", str "ISABEL"]

/-- The name-splitting loop (lines 124-127): for the first catalog name that
is a proper prefix of the candidate, insert a space right after it. -/
def splitNombre (cand : List Char) : List Char :=
  match nombresComunes.find? (fun n => n.isPrefixOf cand && decide (n.length < cand.length)) with
  | some n => n ++ ' ' :: cand.drop n.length
  | none => cand

/-- The given-names extractor (lines 118-129): the line after the first
`PRE NOMBRES` anchor, with name splitting applied and no validation. -/
def extractNombres (lineas : List (List Char)) : Option (List Char) :=
  (lineas.findIdx? hasPreNombre).bind fun i => (lineas[i + 1]?).map splitNombre

/-- The record built by `parsear_dni`; absent dictionary keys are `none`. -/
structure Datos where
  dni : Option (List Char)
  apellido_paterno : Option (List Char)
  apellido_materno : Option (List Char)
  nombres : Option (List Char)
  fecha_nacimiento : Option (List Char)
  fecha_nacimiento_iso : Option (List Char)
  edad : Option Int
  sexo : Option (List Char)
  sexo_completo : Option (List Char)
  nombre_completo : Option (List Char)
deriving DecidableEq, Repr

/-- One iteration of the birth-date loop (lines 133-148) on one 8-digit
candidate: run the Date Corrector, split the corrected value on `/`, rebuild
the date, derive the age as `(hoy - fecha_nac).days // 365`, and accept when
the age lies in [0, 120].  The tuple unpacking of line 136 raises if the
split does not yield three parts, and an exception from `corregir_fecha_ocr`
propagates; the `datetime` reconstruction sits inside `try/except: pass`,
so its failures skip the candidate. -/
def candidatoFromSplit (hoy : Date) (f : List Char) (parts : List (List Char)) :
    Py (Option (List Char × List Char × Int)) :=
  match parts with
  | [ds, ms, ys] =>
    match pyInt? ys, pyInt? ms, pyInt? ds with
    | some y, some m, some d =>
      if validDate y m d then
        let edad : Int :=
          ((toDays hoy : Int) - (toDays ⟨y.toNat, m.toNat, d.toNat⟩ : Int)).fdiv 365
        if 0 ≤ edad ∧ edad ≤ 120 then
          Py.ok (some (f, ys ++ '-' :: ms ++ '-' :: ds, edad))
        else Py.ok none
      else Py.ok none
    | _, _, _ => Py.ok none
  | _ => Py.exn

/-- One iteration of the birth-date loop on one candidate: Date Corrector,
then the split-unpack-rebuild-age step `candidatoFromSplit`. -/
def candidatoFecha (hoy : Date) (c : List Char) : Py (Option (List Char × List Char × Int)) :=
  match corregir_fecha_ocr c with
  | Py.exn => Py.exn
  | Py.ok none => Py.ok none
  | Py.ok (some f) => candidatoFromSplit hoy f (splitOnChar '/' f)

/-- The birth-date loop over all `\b\d{8}\b` candidates, stopping at the
first acceptance. -/
def fechaLoop (hoy : Date) : List (List Char) → Py (Option (List Char × List Char × Int))
  | [] => Py.ok none
  | c :: rest =>
    match candidatoFecha hoy c with
    | Py.exn => Py.exn
    | Py.ok (some r) => Py.ok (some r)
    | Py.ok none => fechaLoop hoy rest

/-- Line 154: `"MASCULINO" if sexo == "M" else "FEMENINO"`. -/
def sexoCompleto (s : List Char) : List Char :=
  if s == str "M" then str "MASCULINO" else str "FEMENINO"

/-- Lines 157-160: the full name requires given names and the paternal
surname, and appends the maternal surname when present. -/
def buildNombreCompleto (nom ap am : Option (List Char)) : Option (List Char) :=
  match nom, ap, am with
  | some n, some p, some m => some (n ++ ' ' :: p ++ ' ' :: m)
  | some n, some p, none => some (n ++ ' ' :: p)
  | _, _, _ => none

/-- The parser `parsear_dni` (lines 82-162).  The extractors write disjoint
keys of the Python dict, so the record is assembled from the independent
extractor results; an uncaught exception from the birth-date loop (the only
fallible part) discards the whole record, as in Python. -/
def parsear_dni (texto : List Char) (hoy : Date) : Py Datos :=
  let lineas := linesOf texto
  match fechaLoop hoy (findall8 texto) with
  | Py.exn => Py.exn
  | Py.ok fres =>
    Py.ok {
      dni := extractDni texto
      apellido_paterno := extractApPaterno lineas
      apellido_materno := extractApMaterno lineas
      nombres := extractNombres lineas
      fecha_nacimiento := fres.map (fun x => x.1)
      fecha_nacimiento_iso := fres.map (fun x => x.2.1)
      edad := fres.map (fun x => x.2.2)
      sexo := sexoSearch texto
      sexo_completo := (sexoSearch texto).map sexoCompleto
      nombre_completo :=
        buildNombreCompleto (extractNombres lineas) (extractApPaterno lineas)
          (extractApMaterno lineas) }

/-- The pipeline entry point `extraer_datos_dni` (lines 167-207).  The
external collaborators are parameters: `engineOk` is whether the process-wide
OCR engine initialized, `imagenOk` whether `cv2.imread` decoded the image,
and `page` the ordered line texts returned by the OCR call (empty when the
engine recognized nothing).  Errors are the left alternative. -/
def extraer_datos_dni (engineOk imagenOk : Bool) (page : List (List Char)) (hoy : Date) :
    Except (List Char) Datos :=
  if engineOk = false then Except.error (str "OCR no inicializado correctamente")
  else if imagenOk = false then Except.error (str "No se pudo cargar la imagen")
  else if page.isEmpty then Except.error (str "No se pudo extraer texto de la imagen")
  else
    match parsear_dni (List.intercalate ['\n'] page) hoy with
    | Py.exn => Except.error (str "Error procesando DNI")
    | Py.ok datos =>
      match datos.dni with
      | none => Except.error (str "No se pudo detectar el DNI en la imagen")
      | some v =>
        if v.isEmpty then Except.error (str "No se pudo detectar el DNI en la imagen")
        else Except.ok datos

/-- A real Gregorian calendar date, following the spec's words (no year-9999
upper bound is stated there; for the 4-digit years produced by the corrector
the two notions coincide). -/
def realDate (y m d : Nat) : Bool :=
  1 ≤ y && 1 ≤ m && m ≤ 12 && 1 ≤ d && d ≤ daysInMonth y m

/-- The spec's day-overflow fix: a leading `3` with two-digit value above 31
becomes `0` plus the second digit. -/
def specDayFix (d1 d2 : Char) : List Char :=
  if d1 == '3' && decide (31 < 10 * dval d1 + dval d2) then ['0', d2] else [d1, d2]

/-- The spec's month fix: `19` becomes `10`. -/
def specMonFix (m1 m2 : Char) : List Char :=
  if m1 == '1' && m2 == '9' then ['1', '0'] else [m1, m2]

/-- The spec's year fixes: `2062` becomes `2002` and `2919` becomes `2019`. -/
def specYearFix (y1 y2 y3 y4 : Char) : List Char :=
  if [y1, y2, y3, y4] == str "2062" then str "2002"
  else if [y1, y2, y3, y4] == str "2919" then str "2019"
  else [y1, y2, y3, y4]

/-- The Date Corrector as described by the spec's words, for comparison with
`corregir_fecha_ocr`: on an 8-digit string apply, in order, the day-overflow
fix, the month fix and the year fixes, then return `dd/mm/yyyy` when the
corrected triple is a real calendar date. -/
def specDateCorrector (s : List Char) : Option (List Char) :=
  match s with
  | [d1, d2, m1, m2, y1, y2, y3, y4] =>
    if realDate (natval (specYearFix y1 y2 y3 y4)) (natval (specMonFix m1 m2))
        (natval (specDayFix d1 d2)) then
      some (specDayFix d1 d2 ++ '/' :: specMonFix m1 m2 ++ '/' :: specYearFix y1 y2 y3 y4)
    else none
  | _ => none

/-- All maximal runs of exactly 8 digits of a text, in order of appearance,
following the spec's words for the birth-date candidate enumeration (no
word-boundary condition). -/
def maxRuns8Go : Nat → List Char → List (List Char)
  | 0, _ => []
  | _ + 1, [] => []
  | fuel + 1, c :: rest =>
    if c.isDigit then
      let run := c :: rest.takeWhile Char.isDigit
      let rest1 := rest.dropWhile Char.isDigit
      (if run.length == 8 then [run] else []) ++ maxRuns8Go fuel rest1
    else maxRuns8Go fuel rest

/-- All maximal runs of exactly 8 digits, in order of appearance. -/
def maxRuns8 (t : List Char) : List (List Char) := maxRuns8Go (t.length + 1) t

/-- Maximal digit runs of exactly 8 digits that are word-boundary delimited:
not preceded (`prevWord`) and not followed by a word character.  This is the
declarative counterpart of the `\b\d{8}\b` scan `findall8`. -/
def runs8Go : Nat → Bool → List Char → List (List Char)
  | 0, _, _ => []
  | _ + 1, _, [] => []
  | fuel + 1, prevWord, c :: rest =>
    if c.isDigit then
      let run := c :: rest.takeWhile Char.isDigit
      let rest1 := rest.dropWhile Char.isDigit
      (if !prevWord && run.length == 8 && noWordAhead rest1 then [run] else []) ++
        runs8Go fuel true rest1
    else runs8Go fuel (isWordChar c) rest

/-- Maximal runs of exactly 8 digits not adjacent to a word character. -/
def runs8 (t : List Char) : List (List Char) := runs8Go (t.length + 1) false t

/-- Whether one birth-date candidate is accepted (corrects to a valid date
whose derived age lies in [0, 120]). -/
def aceptaFecha (hoy : Date) (c : List Char) : Bool :=
  match candidatoFecha hoy c with
  | Py.ok (some _) => true
  | _ => false

/-- The `dd/mm/yyyy` value recorded for an accepted candidate. -/
def fechaDe (hoy : Date) (c : List Char) : Option (List Char) :=
  match candidatoFecha hoy c with
  | Py.ok (some r) => some r.1
  | _ => none

/-- Number of full calendar years elapsed from `b` to `n` (for `n` past `b`):
years difference, minus one when the anniversary has not yet been reached. -/
def fullYearsBetween (b n : Date) : Int :=
  (n.year : Int) - (b.year : Int) -
    (if n.month < b.month ∨ (n.month = b.month ∧ n.day < b.day) then 1 else 0)

/-- The claim's reading of the document-number recognition rule, following
the spec's words strictly: the text contains `DNI` (case-insensitively),
followed by whitespace (at least one character), and exactly 8 digits (no
ninth digit follows). -/
def tryDniStrict (s : List Char) : Bool :=
  match matchCI (str "DNI") s with
  | none => false
  | some r =>
    match r with
    | c :: _ =>
      isPySpace c &&
        (let r1 := r.dropWhile isPySpace
         let v := r1.take 8
         v.length == 8 && v.all Char.isDigit &&
           (match r1.drop 8 with
            | [] => true
            | d :: _ => !d.isDigit))
    | [] => false

/-- Strict spec-side document-number recognition over the whole text. -/
def specDniStrict (t : List Char) : Bool := scanB tryDniStrict t

/-- The claim's character domain for name fields: uppercase Latin letters
(including the Spanish accented vowels and enie) and spaces. -/
def upperSpaceOnly (s : List Char) : Bool :=
  s.all (fun c =>
    ('A' ≤ c && c ≤ 'Z') ||
    c == 'Á' || c == 'É' || c == 'Í' || c == 'Ó' || c == 'Ú' || c == 'Ñ' ||
    c == ' ')

lemma take_append_of_length {α : Type} {l1 : List α} (l2 : List α) {n : Nat}
    (h : l1.length = n) : (l1 ++ l2).take n = l1 := by
  subst h
  induction l1 with
  | nil => rfl
  | cons a as ih => simp [ih]

lemma drop_append_of_length {α : Type} {l1 : List α} (l2 : List α) {n : Nat}
    (h : l1.length = n) : (l1 ++ l2).drop n = l2 := by
  subst h
  induction l1 with
  | nil => rfl
  | cons a as ih => simp [ih]

lemma dropWhile_append_of_all {α : Type} {p : α → Bool} {l1 : List α} (l2 : List α)
    (h : ∀ c ∈ l1, p c = true) : (l1 ++ l2).dropWhile p = l2.dropWhile p := by
  induction l1 with
  | nil => rfl
  | cons a as ih =>
    have ha : p a = true := h a (by simp)
    simp [List.dropWhile, ha]
    exact ih (fun c hc => h c (by simp [hc]))

lemma dropWhile_cons_of_neg {α : Type} {p : α → Bool} {a : α} (l : List α)
    (h : p a = false) : (a :: l).dropWhile p = a :: l := by
  simp [List.dropWhile, h]

lemma dropWhile_eq_cons_not {α : Type} {p : α → Bool} {l : List α} {c : α} {r : List α}
    (h : l.dropWhile p = c :: r) : p c = false := by
  induction l with
  | nil => simp [List.dropWhile] at h
  | cons a as ih =>
    by_cases hp : p a = true
    · rw [List.dropWhile_cons, if_pos hp] at h
      exact ih h
    · rw [List.dropWhile_cons, if_neg hp] at h
      cases h
      exact Bool.eq_false_iff.mpr hp

lemma digit_ne {c d : Char} (h : c.isDigit = true) (hd : d.isDigit = false) :
    (c == d) = false := by
  cases hcd : c == d with
  | false => rfl
  | true =>
    rw [beq_iff_eq] at hcd
    subst hcd
    rw [h] at hd
    exact Bool.noConfusion hd

lemma digit_ne' {c d : Char} (h : c.isDigit = true) (hd : d.isDigit = false) : c ≠ d := by
  intro hc
  subst hc
  rw [h] at hd
  exact Bool.noConfusion hd

lemma digit_not_space {c : Char} (h : c.isDigit = true) : isPySpace c = false := by
  unfold isPySpace
  rw [digit_ne h (by decide), digit_ne h (by decide), digit_ne h (by decide),
      digit_ne h (by decide), digit_ne h (by decide), digit_ne h (by decide)]
  rfl

lemma digit_word {c : Char} (h : c.isDigit = true) : isWordChar c = true := by
  unfold isWordChar Char.isAlphanum
  rw [h]
  simp

lemma parseDigitsGo_digits {l : List Char} (h : ∀ c ∈ l, c.isDigit = true) (acc : Nat) :
    parseDigitsGo acc l = some (l.foldl (fun a c => 10 * a + dval c) acc) := by
  induction l generalizing acc with
  | nil => rfl
  | cons a as ih =>
    have ha : a.isDigit = true := h a (by simp)
    rw [parseDigitsGo.eq_def]
    simp only [ha, if_true, List.foldl_cons]
    exact ih (fun c hc => h c (by simp [hc])) _

lemma pyInt?_digits {l : List Char} (hne : l ≠ []) (h : ∀ c ∈ l, c.isDigit = true) :
    pyInt? l = some (natval l : Int) := by
  obtain ⟨a, as, rfl⟩ : ∃ a as, l = a :: as := by
    cases l with
    | nil => exact absurd rfl hne
    | cons a as => exact ⟨a, as, rfl⟩
  have ha : a.isDigit = true := h a (by simp)
  have hstrip : pyStrip (a :: as) = a :: as := by
    unfold pyStrip
    rw [dropWhile_cons_of_neg _ (digit_not_space ha)]
    have hrv : ((a :: as).reverse).dropWhile isPySpace = (a :: as).reverse := by
      cases hrev : (a :: as).reverse with
      | nil => simp
      | cons b bs =>
        have hb : b ∈ (a :: as).reverse := by rw [hrev]; simp
        rw [List.mem_reverse] at hb
        exact dropWhile_cons_of_neg _ (digit_not_space (h b hb))
    rw [hrv, List.reverse_reverse]
  have hdig : parseDigits? (a :: as) = some (natval (a :: as)) := by
    rw [parseDigits?, if_pos ha, natval, List.foldl_cons]
    have h0 : 10 * 0 + dval a = dval a := by omega
    rw [h0]
    exact parseDigitsGo_digits (fun c hc => h c (by simp [hc])) _
  have hap : a ≠ '+' := digit_ne' ha (by decide)
  have ham : a ≠ '-' := digit_ne' ha (by decide)
  unfold pyInt?
  rw [hstrip]
  split
  · rename_i heq
    exact absurd (List.head_eq_of_cons_eq heq) hap
  · rename_i heq
    exact absurd (List.head_eq_of_cons_eq heq) ham
  · rw [hdig]
    rfl

lemma bool_ext {a b : Bool} (h : a = true ↔ b = true) : a = b := by
  cases a <;> cases b <;> simp_all

lemma digit_toNat {c : Char} (h : c.isDigit = true) : 48 ≤ c.toNat ∧ c.toNat ≤ 57 := by
  unfold Char.isDigit at h
  rw [Bool.and_eq_true, decide_eq_true_eq, decide_eq_true_eq] at h
  exact ⟨UInt32.le_toNat_of_le (by norm_num) h.1, UInt32.toNat_le_of_le (by norm_num) h.2⟩

lemma dval_le9 {c : Char} (h : c.isDigit = true) : dval c ≤ 9 := by
  have hr := digit_toNat h
  show c.toNat - '0'.toNat ≤ 9
  have h0 : '0'.toNat = 48 := by decide
  omega

lemma natval_two (a b : Char) : natval [a, b] = 10 * dval a + dval b := by
  simp only [natval, List.foldl]
  omega

lemma natval_four (a b c d : Char) :
    natval [a, b, c, d] = 1000 * dval a + 100 * dval b + 10 * dval c + dval d := by
  simp only [natval, List.foldl]
  omega

lemma natval_four_le {a b c d : Char} (ha : a.isDigit = true) (hb : b.isDigit = true)
    (hc : c.isDigit = true) (hd : d.isDigit = true) : natval [a, b, c, d] ≤ 9999 := by
  have h1 := dval_le9 ha
  have h2 := dval_le9 hb
  have h3 := dval_le9 hc
  have h4 := dval_le9 hd
  rw [natval_four]
  omega

lemma validDate_coe {y m d : Nat} (hy : y ≤ 9999) :
    validDate (y : Int) (m : Int) (d : Int) = realDate y m d := by
  apply bool_ext
  simp only [validDate, realDate, Int.toNat_natCast, Bool.and_eq_true, decide_eq_true_eq]
  omega

lemma beq_one (a x : Char) : ([a] == [x]) = (a == x) := by
  show (a == x && true) = (a == x)
  rw [Bool.and_true]

lemma beq_two (a b x y : Char) : ([a, b] == [x, y]) = (a == x && b == y) := by
  show (a == x && (b == y && true)) = (a == x && b == y)
  rw [Bool.and_true]

lemma digits_of_ite {P : Prop} [Decidable P] {l1 l2 : List Char}
    (h1 : ∀ x ∈ l1, x.isDigit = true) (h2 : ∀ x ∈ l2, x.isDigit = true) :
    ∀ x ∈ (if P then l1 else l2), x.isDigit = true := by
  split
  · exact h1
  · exact h2

lemma ne_nil_of_ite {P : Prop} [Decidable P] {l1 l2 : List Char}
    (h1 : l1 ≠ []) (h2 : l2 ≠ []) : (if P then l1 else l2) ≠ [] := by
  split
  · exact h1
  · exact h2

lemma digits_pair {c d : Char} (hc : c.isDigit = true) (hd : d.isDigit = true) :
    ∀ x ∈ [c, d], x.isDigit = true := by
  intro x hx
  rcases List.mem_cons.mp hx with rfl | hx
  · exact hc
  rcases List.mem_cons.mp hx with rfl | hx
  · exact hd
  · simp at hx

lemma digits_quad {e f g h : Char} (he : e.isDigit = true) (hf : f.isDigit = true)
    (hg : g.isDigit = true) (hh : h.isDigit = true) :
    ∀ x ∈ [e, f, g, h], x.isDigit = true := by
  intro x hx
  rcases List.mem_cons.mp hx with rfl | hx
  · exact he
  rcases List.mem_cons.mp hx with rfl | hx
  · exact hf
  rcases List.mem_cons.mp hx with rfl | hx
  · exact hg
  rcases List.mem_cons.mp hx with rfl | hx
  · exact hh
  · simp at hx

lemma corregir_valid_step {dia1 mes1 anio1 : List Char}
    (hdne : dia1 ≠ []) (hdd : ∀ x ∈ dia1, x.isDigit = true)
    (hmne : mes1 ≠ []) (hmd : ∀ x ∈ mes1, x.isDigit = true)
    (hane : anio1 ≠ []) (had : ∀ x ∈ anio1, x.isDigit = true)
    (hy : natval anio1 ≤ 9999) :
    (match pyInt? anio1, pyInt? mes1, pyInt? dia1 with
     | some y, some m, some d =>
       if validDate y m d then Py.ok (some (dia1 ++ '/' :: mes1 ++ '/' :: anio1))
       else Py.ok none
     | _, _, _ => (Py.ok none : Py (Option (List Char)))) =
    Py.ok (if realDate (natval anio1) (natval mes1) (natval dia1) then
             some (dia1 ++ '/' :: mes1 ++ '/' :: anio1) else none) := by
  rw [pyInt?_digits hane had, pyInt?_digits hmne hmd, pyInt?_digits hdne hdd]
  simp only [validDate_coe hy]
  cases hr : realDate (natval anio1) (natval mes1) (natval dia1) <;> simp [hr]

lemma fixDia_digits {a b : Char} (ha : a.isDigit = true) (hb : b.isDigit = true) :
    fixDia [a, b] =
      Py.ok (if a == '3' && decide (31 < natval [a, b]) then ['0', b] else [a, b]) := by
  unfold fixDia
  simp only [List.take_succ_cons, List.take_zero, List.drop_succ_cons, List.drop_zero,
    List.singleton_append]
  rw [beq_one]
  cases ha3 : a == '3' with
  | false => simp
  | true =>
    simp only [if_true, Bool.true_and]
    rw [pyInt?_digits (by simp) (digits_pair ha hb)]
    show Py.ok (if ((natval [a, b] : Int) > 31) then ['0', b] else [a, b]) = _
    by_cases h31 : 31 < natval [a, b]
    · rw [if_pos (by exact_mod_cast h31), if_pos (by rw [decide_eq_true h31])]
    · rw [if_neg (by exact_mod_cast h31), if_neg (by rw [decide_eq_false h31]; exact Bool.noConfusion)]

lemma corregir_eq_spec_of_digits {a b c d e f g h : Char}
    (ha : a.isDigit = true) (hb : b.isDigit = true) (hc : c.isDigit = true)
    (hd : d.isDigit = true) (he : e.isDigit = true) (hf : f.isDigit = true)
    (hg : g.isDigit = true) (hh : h.isDigit = true) :
    corregir_fecha_ocr [a, b, c, d, e, f, g, h] =
      Py.ok (specDateCorrector [a, b, c, d, e, f, g, h]) := by
  have hyd : ∀ x ∈ (if [e, f, g, h] == str "2062" then str "2002"
      else if [e, f, g, h] == str "2919" then str "2019" else [e, f, g, h]), x.isDigit = true :=
    digits_of_ite (by decide) (digits_of_ite (by decide) (digits_quad he hf hg hh))
  have hyn : (if [e, f, g, h] == str "2062" then str "2002"
      else if [e, f, g, h] == str "2919" then str "2019" else [e, f, g, h]) ≠ [] :=
    ne_nil_of_ite (by decide) (ne_nil_of_ite (by decide) (by simp))
  have hyl : natval (if [e, f, g, h] == str "2062" then str "2002"
      else if [e, f, g, h] == str "2919" then str "2019" else [e, f, g, h]) ≤ 9999 := by
    split
    · decide
    split
    · decide
    · exact natval_four_le he hf hg hh
  have hmdg : ∀ x ∈ (if [c, d] == str "19" then str "10" else [c, d]), x.isDigit = true :=
    digits_of_ite (by decide) (digits_pair hc hd)
  have hmn : (if [c, d] == str "19" then str "10" else [c, d]) ≠ [] :=
    ne_nil_of_ite (by decide) (by simp)
  unfold corregir_fecha_ocr
  simp only [specDateCorrector, specDayFix, specMonFix, specYearFix]
  rw [if_neg (by simp)]
  simp only [List.take_succ_cons, List.take_zero, List.drop_succ_cons, List.drop_zero]
  rw [fixDia_digits ha hb]
  rw [show (10 : Nat) * dval a + dval b = natval [a, b] from (natval_two a b).symm]
  rw [show (if (c == '1' && d == '9') = true then ['1', '0'] else [c, d]) =
        (if ([c, d] == str "19") = true then str "10" else [c, d]) from by
    rw [show str "19" = ['1', '9'] from rfl, beq_two]
    rfl]
  cases had3 : (a == '3' && decide (31 < natval [a, b])) with
  | false =>
    simp only [Bool.false_eq_true, if_false]
    exact corregir_valid_step (by simp) (digits_pair ha hb) hmn hmdg hyn hyd hyl
  | true =>
    simp only [if_true]
    exact corregir_valid_step (by simp)
      (digits_pair (show Char.isDigit '0' = true from by decide) hb) hmn hmdg hyn hyd hyl

lemma length_eight_shape {s : List Char} (hl : s.length = 8) :
    ∃ a b c d e f g h, s = [a, b, c, d, e, f, g, h] := by
  rcases s with _ | ⟨a, s⟩
  · simp only [List.length_nil] at hl
    omega
  rcases s with _ | ⟨b, s⟩
  · simp only [List.length_cons, List.length_nil] at hl
    omega
  rcases s with _ | ⟨c, s⟩
  · simp only [List.length_cons, List.length_nil] at hl
    omega
  rcases s with _ | ⟨d, s⟩
  · simp only [List.length_cons, List.length_nil] at hl
    omega
  rcases s with _ | ⟨e, s⟩
  · simp only [List.length_cons, List.length_nil] at hl
    omega
  rcases s with _ | ⟨f, s⟩
  · simp only [List.length_cons, List.length_nil] at hl
    omega
  rcases s with _ | ⟨g, s⟩
  · simp only [List.length_cons, List.length_nil] at hl
    omega
  rcases s with _ | ⟨h, s⟩
  · simp only [List.length_cons, List.length_nil] at hl
    omega
  rcases s with _ | ⟨x, s⟩
  · exact ⟨a, b, c, d, e, f, g, h, rfl⟩
  · simp only [List.length_cons, List.length_nil] at hl
    omega

/-- Claim C1, counterexample: on the 8-character input `"3a112002"` the Date
Corrector raises an uncaught `ValueError` (from `int(dia)` on line 64, which
sits outside the `try` block) instead of returning none, so the claim's
"for every input string ... returns none otherwise" is false as stated. -/
theorem C1_counterexample :
    corregir_fecha_ocr (str "3a112002") = Py.exn ∧
      Py.exn ≠ (Py.ok none : Py (Option (List Char))) :=
  ⟨by decide, by decide⟩

/-- Claim C1 (amended): the Date Corrector returns none for every string
whose length is not 8; on every 8-character string of decimal digits it
returns exactly the spec's description `specDateCorrector`: apply in order
the day-overflow fix, the month fix `19` to `10`, the year fixes `2062` to
`2002` and `2919` to `2019`, then return the corrected date as `dd/mm/yyyy`
when the corrected triple is a real Gregorian calendar date and none
otherwise; in particular `correct("35112002") = "05/11/2002"`.  (On 8-char
strings with a non-digit the code can raise instead of returning none.) -/
theorem C1_date_corrector :
    (∀ s : List Char, s.length ≠ 8 → corregir_fecha_ocr s = Py.ok none) ∧
    (∀ s : List Char, s.length = 8 → (∀ c ∈ s, c.isDigit = true) →
      corregir_fecha_ocr s = Py.ok (specDateCorrector s)) ∧
    corregir_fecha_ocr (str "35112002") = Py.ok (some (str "05/11/2002")) := by
  refine ⟨?_, ?_, by decide⟩
  · intro s hl
    unfold corregir_fecha_ocr
    rw [if_pos hl]
  · intro s hl hdig
    obtain ⟨a, b, c, d, e, f, g, h, rfl⟩ := length_eight_shape hl
    exact corregir_eq_spec_of_digits
      (hdig a (by simp)) (hdig b (by simp)) (hdig c (by simp)) (hdig d (by simp))
      (hdig e (by simp)) (hdig f (by simp)) (hdig g (by simp)) (hdig h (by simp))

/-- Witness for C1: the amended theorem applied at the concrete inputs
`"123"` (wrong length) and `"15192005"` (8 digits, month fix). -/
theorem C1_date_corrector_witness :
    corregir_fecha_ocr (str "123") = Py.ok none ∧
      corregir_fecha_ocr (str "15192005") = Py.ok (specDateCorrector (str "15192005")) ∧
      specDateCorrector (str "15192005") = some (str "15/10/2005") :=
  ⟨C1_date_corrector.1 (str "123") (by decide),
   C1_date_corrector.2.1 (str "15192005") (by decide) (by decide),
   by decide⟩

lemma parsear_ok_fields {texto : List Char} {hoy : Date} {d : Datos}
    (h : parsear_dni texto hoy = Py.ok d) :
    d.dni = extractDni texto ∧
    d.apellido_paterno = extractApPaterno (linesOf texto) ∧
    d.apellido_materno = extractApMaterno (linesOf texto) ∧
    d.nombres = extractNombres (linesOf texto) ∧
    d.nombre_completo = buildNombreCompleto (extractNombres (linesOf texto))
      (extractApPaterno (linesOf texto)) (extractApMaterno (linesOf texto)) ∧
    ∃ fres, fechaLoop hoy (findall8 texto) = Py.ok fres ∧
      d.fecha_nacimiento = fres.map (fun x => x.1) ∧
      d.fecha_nacimiento_iso = fres.map (fun x => x.2.1) ∧
      d.edad = fres.map (fun x => x.2.2) := by
  simp only [parsear_dni] at h
  cases hf : fechaLoop hoy (findall8 texto) with
  | exn =>
    rw [hf] at h
    exact Py.noConfusion h
  | ok fres =>
    rw [hf] at h
    cases h
    exact ⟨rfl, rfl, rfl, rfl, rfl, fres, rfl, rfl, rfl, rfl⟩

/-- Claim C8: for every input text, the full-name key is present in the
record returned by `parsear_dni` if and only if both the given names and the
paternal surname are present; with the maternal surname also present it is
the three fields joined as names-paternal-maternal, otherwise it is
names-paternal; a full name is never built from surnames alone. -/
theorem C8_nombre_completo : ∀ (texto : List Char) (hoy : Date) (d : Datos),
    parsear_dni texto hoy = Py.ok d →
    ((d.nombre_completo.isSome ↔ (d.nombres.isSome ∧ d.apellido_paterno.isSome)) ∧
     (∀ n p m, d.nombres = some n → d.apellido_paterno = some p →
        d.apellido_materno = some m →
        d.nombre_completo = some (n ++ ' ' :: p ++ ' ' :: m)) ∧
     (∀ n p, d.nombres = some n → d.apellido_paterno = some p →
        d.apellido_materno = none → d.nombre_completo = some (n ++ ' ' :: p))) := by
  intro texto hoy d h
  obtain ⟨-, hap, ham, hnom, hnc, -⟩ := parsear_ok_fields h
  rw [hnc, hnom, hap, ham]
  generalize extractNombres (linesOf texto) = N
  generalize extractApPaterno (linesOf texto) = P
  generalize extractApMaterno (linesOf texto) = M
  rcases N with _ | n <;> rcases P with _ | p <;> rcases M with _ | m <;>
    simp [buildNombreCompleto]

/-- Witness for C8 at a text carrying given names and a paternal surname but
no maternal surname. -/
theorem C8_nombre_completo_witness :
    parsear_dni (str "PRE NOMBRES\nJUAN\nPRIMER APELLIDO\nPEREZ") ⟨2025, 1, 1⟩ =
      Py.ok { dni := none, apellido_paterno := some (str "PEREZ"), apellido_materno := none,
              nombres := some (str "JUAN"), fecha_nacimiento := none,
              fecha_nacimiento_iso := none, edad := none, sexo := none,
              sexo_completo := none, nombre_completo := some (str "JUAN PEREZ") } ∧
    ({ dni := none, apellido_paterno := some (str "PEREZ"), apellido_materno := none,
       nombres := some (str "JUAN"), fecha_nacimiento := none,
       fecha_nacimiento_iso := none, edad := none, sexo := none,
       sexo_completo := none,
       nombre_completo := some (str "JUAN PEREZ") } : Datos).nombre_completo =
      some (str "JUAN" ++ ' ' :: str "PEREZ") :=
  ⟨by decide,
   (C8_nombre_completo (str "PRE NOMBRES\nJUAN\nPRIMER APELLIDO\nPEREZ") ⟨2025, 1, 1⟩ _
      (by decide)).2.2 (str "JUAN") (str "PEREZ") rfl rfl rfl⟩

lemma splitNombre_of_mem {n rest : List Char} (hn : n ∈ nombresComunes) (hrest : rest ≠ []) :
    splitNombre (n ++ rest) = n ++ ' ' :: rest := by
  have hlen : 0 < rest.length := List.length_pos.mpr hrest
  unfold splitNombre
  have hfind : nombresComunes.find?
      (fun m => m.isPrefixOf (n ++ rest) && decide (m.length < (n ++ rest).length)) =
      some n := by
    fin_cases hn <;>
      simp [nombresComunes, str, List.find?, List.isPrefixOf, List.length_append, hlen]
  rw [hfind]
  show n ++ ' ' :: (n ++ rest).drop n.length = n ++ ' ' :: rest
  rw [drop_append_of_length rest rfl]

/-- Claim C9: whenever a given-names candidate starts with a catalog name
(MARIA, MONICA, JUAN, JOSE, LUIS, CARLOS, ISABEL) and has trailing
characters, the name-splitting step inserts a single space right after the
matched prefix (no two catalog entries can match at once, the entries being
pairwise non-prefixes); in particular `parsear_dni` turns candidate
`"MARIAISABEL"` into recorded given names `"MARIA ISABEL"`. -/
theorem C9_name_splitting :
    (∀ cand n rest, n ∈ nombresComunes → cand = n ++ rest → rest ≠ [] →
       splitNombre cand = n ++ ' ' :: rest) ∧
    (∀ hoy : Date, ∃ d : Datos,
       parsear_dni (str "PRE NOMBRES\nMARIAISABEL") hoy = Py.ok d ∧
       d.nombres = some (str "MARIA ISABEL")) := by
  constructor
  · intro cand n rest hn hc hrest
    subst hc
    exact splitNombre_of_mem hn hrest
  · intro hoy
    exact ⟨_, rfl, rfl⟩

/-- Witness for C9 at the spec's example `"MARIAISABEL"`. -/
theorem C9_name_splitting_witness :
    str "MARIAISABEL" = str "MARIA" ++ str "ISABEL" ∧
    splitNombre (str "MARIAISABEL") = str "MARIA" ++ ' ' :: str "ISABEL" :=
  ⟨by decide,
   C9_name_splitting.1 (str "MARIAISABEL") (str "MARIA") (str "ISABEL")
     (by decide) (by decide) (by decide)⟩

/-- Claim C10: a given-names candidate that strictly extends a catalog name
and already has a space after it still gets an extra space inserted, so the
recorded given names contain two consecutive spaces; in particular the
well-formed candidate `"MARIA ISABEL"` is recorded as `"MARIA  ISABEL"`. -/
theorem C10_double_space :
    (∀ cand n rest, n ∈ nombresComunes → cand = n ++ ' ' :: rest →
       splitNombre cand = n ++ ' ' :: ' ' :: rest) ∧
    (∀ hoy : Date, ∃ d : Datos,
       parsear_dni (str "PRE NOMBRES\nMARIA ISABEL") hoy = Py.ok d ∧
       d.nombres = some (str "MARIA  ISABEL")) := by
  constructor
  · intro cand n rest hn hc
    subst hc
    exact splitNombre_of_mem hn (by simp)
  · intro hoy
    exact ⟨_, rfl, rfl⟩

/-- Witness for C10 at the already well-formed candidate `"MARIA ISABEL"`. -/
theorem C10_double_space_witness :
    str "MARIA ISABEL" = str "MARIA" ++ ' ' :: str "ISABEL" ∧
    splitNombre (str "MARIA ISABEL") = str "MARIA" ++ ' ' :: ' ' :: str "ISABEL" :=
  ⟨by decide,
   C10_double_space.1 (str "MARIA ISABEL") (str "MARIA") (str "ISABEL")
     (by decide) (by decide)⟩

/-- Claim C7: whatever the other fields, when the parsed record lacks the
document number the pipeline entry point returns the
document-number-not-found error; when the document number is present the
record is returned as-is, so individual field-extraction failures never
abort the call or surface as errors. -/
theorem C7_dni_required :
    ∀ (page : List (List Char)) (hoy : Date) (d : Datos),
      page ≠ [] →
      parsear_dni (List.intercalate ['\n'] page) hoy = Py.ok d →
      ((d.dni = none →
          extraer_datos_dni true true page hoy =
            Except.error (str "No se pudo detectar el DNI en la imagen")) ∧
       (∀ v, d.dni = some v → v ≠ [] → extraer_datos_dni true true page hoy = Except.ok d)) := by
  intro page hoy d hpage hparse
  have hne : page.isEmpty = false := by
    cases page with
    | nil => exact absurd rfl hpage
    | cons a l => rfl
  unfold extraer_datos_dni
  rw [if_neg (by simp), if_neg (by simp), if_neg (by simp [hne]), hparse]
  constructor
  · intro hdni
    simp only [hdni]
  · intro v hdni hv
    simp only [hdni]
    rw [if_neg (by simp [hv])]

/-- Witness for C7 at a one-line text with no recognizable fields. -/
theorem C7_dni_required_witness :
    parsear_dni (List.intercalate ['\n'] [str "HOLA"]) ⟨2025, 1, 1⟩ =
      Py.ok { dni := none, apellido_paterno := none, apellido_materno := none,
              nombres := none, fecha_nacimiento := none, fecha_nacimiento_iso := none,
              edad := none, sexo := none, sexo_completo := none, nombre_completo := none } ∧
    extraer_datos_dni true true [str "HOLA"] ⟨2025, 1, 1⟩ =
      Except.error (str "No se pudo detectar el DNI en la imagen") :=
  ⟨by decide,
   (C7_dni_required [str "HOLA"] ⟨2025, 1, 1⟩
      { dni := none, apellido_paterno := none, apellido_materno := none,
        nombres := none, fecha_nacimiento := none, fecha_nacimiento_iso := none,
        edad := none, sexo := none, sexo_completo := none, nombre_completo := none }
      (by decide) (by decide)).1 rfl⟩

lemma matchStr_some (p : List Char) : ∀ s r, (matchStr p s = some r ↔ s = p ++ r) := by
  induction p with
  | nil =>
    intro s r
    constructor
    · intro h
      cases h
      rfl
    · rintro rfl
      rfl
  | cons p ps ih =>
    intro s r
    cases s with
    | nil =>
      constructor
      · intro h
        exact Option.noConfusion h
      · intro h
        exact List.noConfusion h
    | cons c cs =>
      show (if c == p then matchStr ps cs else none) = some r ↔ _
      cases hc : c == p with
      | true =>
        have hcp : c = p := beq_iff_eq.mp hc
        subst hcp
        rw [if_pos rfl]
        rw [ih cs r]
        simp
      | false =>
        rw [if_neg (by simp [hc])]
        constructor
        · intro h
          exact Option.noConfusion h
        · intro h
          have hcp : c = p := List.head_eq_of_cons_eq h
          subst hcp
          simp at hc

lemma scanOpt_eq_some_exists {f : List Char → Option (List Char)} :
    ∀ {t v : List Char}, scanOpt f t = some v → ∃ a b, t = a ++ b ∧ f b = some v := by
  intro t
  induction t with
  | nil =>
    intro v h
    exact ⟨[], [], rfl, h⟩
  | cons c rest ih =>
    intro v h
    rw [scanOpt] at h
    cases hf : f (c :: rest) with
    | some w =>
      rw [hf] at h
      cases h
      exact ⟨[], c :: rest, rfl, hf⟩
    | none =>
      rw [hf] at h
      obtain ⟨a, b, rfl, hb⟩ := ih h
      exact ⟨c :: a, b, rfl, hb⟩

lemma scanOpt_isSome_append {f : List Char → Option (List Char)} :
    ∀ (a b : List Char), (f b).isSome = true → (scanOpt f (a ++ b)).isSome = true := by
  intro a
  induction a with
  | nil =>
    intro b hb
    simp only [List.nil_append]
    cases b with
    | nil => exact hb
    | cons c cs =>
      show (match f (c :: cs) with
            | some v => some v
            | none => scanOpt f cs).isSome = true
      cases hf : f (c :: cs) with
      | some w => rfl
      | none =>
        rw [hf] at hb
        simp at hb
  | cons x a ih =>
    intro b hb
    simp only [List.cons_append]
    show (match f (x :: (a ++ b)) with
          | some v => some v
          | none => scanOpt f (a ++ b)).isSome = true
    cases hf : f (x :: (a ++ b)) with
    | some w => rfl
    | none => exact ih b hb

lemma tryPer_eq_some {s v : List Char} :
    tryPer s = some v ↔
      v.length = 8 ∧ (∀ c ∈ v, c.isDigit = true) ∧ ∃ b, s = str "PER" ++ (v ++ b) := by
  unfold tryPer
  constructor
  · intro h
    cases hm : matchStr (str "PER") s with
    | none =>
      rw [hm] at h
      exact Option.noConfusion h
    | some r =>
      rw [hm, Option.some_bind] at h
      by_cases hc : ((r.take 8).length == 8 && (r.take 8).all Char.isDigit) = true
      · rw [if_pos hc] at h
        cases h
        rcases Bool.and_eq_true .. |>.mp hc with ⟨h1, h2⟩
        have hlen : (r.take 8).length = 8 := by rwa [beq_iff_eq] at h1
        refine ⟨hlen, ?_, r.drop 8, ?_⟩
        · exact fun c hcm => List.all_eq_true.mp h2 c hcm
        · rw [(matchStr_some _ _ _).mp hm, List.take_append_drop]
      · rw [if_neg hc] at h
        exact Option.noConfusion h
  · rintro ⟨hlen, hdig, b, rfl⟩
    rw [(matchStr_some (str "PER") _ _).mpr rfl, Option.some_bind]
    rw [take_append_of_length b hlen]
    rw [if_pos (by rw [hlen]; simp [List.all_eq_true]; exact fun c hc => hdig c hc)]

lemma perSearch_isSome_iff {t : List Char} :
    (perSearch t).isSome = true ↔
      ∃ a v b, t = a ++ str "PER" ++ v ++ b ∧ v.length = 8 ∧ (∀ c ∈ v, c.isDigit = true) := by
  constructor
  · intro h
    obtain ⟨v, hv⟩ := Option.isSome_iff_exists.mp h
    obtain ⟨a, b, rfl, hb⟩ := scanOpt_eq_some_exists hv
    obtain ⟨hlen, hdig, b1, rfl⟩ := tryPer_eq_some.mp hb
    exact ⟨a, v, b1, by simp [List.append_assoc], hlen, hdig⟩
  · rintro ⟨a, v, b, rfl, hlen, hdig⟩
    show (scanOpt tryPer (a ++ str "PER" ++ v ++ b)).isSome = true
    rw [List.append_assoc, List.append_assoc]
    apply scanOpt_isSome_append a (str "PER" ++ (v ++ b))
    rw [Option.isSome_iff_exists]
    exact ⟨v, tryPer_eq_some.mpr ⟨hlen, hdig, b, rfl⟩⟩

/-- Claim C6: when the raw captured document number starts with `00`, the
extractor records the text's `PER`-plus-8-digits MRZ value when one exists
and keeps the raw candidate only when none does; a `PER` match exists exactly
when the text decomposes around `PER` followed by 8 digits; in particular
`"00345678"` with `"PER87654321"` present resolves to `"87654321"`. -/
theorem C6_mrz_override :
    (∀ t raw, dniSearchRaw t = some raw → (str "00").isPrefixOf raw = true →
       extractDni t = some ((perSearch t).getD raw)) ∧
    (∀ t : List Char, (perSearch t).isSome = true ↔
       ∃ a v b, t = a ++ str "PER" ++ v ++ b ∧ v.length = 8 ∧ (∀ c ∈ v, c.isDigit = true)) ∧
    extractDni (str "DNI 00345678\nPER87654321") = some (str "87654321") := by
  refine ⟨?_, fun t => perSearch_isSome_iff, by decide⟩
  intro t raw h1 h2
  unfold extractDni
  rw [h1]
  show (if (str "00").isPrefixOf raw = true then some ((perSearch t).getD raw) else some raw) = _
  rw [if_pos h2]

/-- Witness for C6 at a text whose captured number starts with `00` and whose
MRZ carries the true number. -/
theorem C6_mrz_override_witness :
    dniSearchRaw (str "DNI 00345678\nPER87654321") = some (str "00345678") ∧
    (str "00").isPrefixOf (str "00345678") = true ∧
    extractDni (str "DNI 00345678\nPER87654321") =
      some ((perSearch (str "DNI 00345678\nPER87654321")).getD (str "00345678")) :=
  ⟨by decide, by decide, C6_mrz_override.1 _ _ (by decide) (by decide)⟩

lemma extractApPaterno_valid {lineas : List (List Char)} {s : List Char}
    (h : extractApPaterno lineas = some s) : apellidoOk s = true := by
  unfold extractApPaterno at h
  obtain ⟨i, hi, h⟩ := Option.bind_eq_some.mp h
  obtain ⟨cand, hc, h⟩ := Option.bind_eq_some.mp h
  split at h
  · cases h
    assumption
  · exact Option.noConfusion h

lemma extractApMaterno_valid {lineas : List (List Char)} {s : List Char}
    (h : extractApMaterno lineas = some s) : apellidoOk s = true := by
  unfold extractApMaterno at h
  obtain ⟨i, hi, h⟩ := Option.bind_eq_some.mp h
  obtain ⟨cand0, hc0, h⟩ := Option.bind_eq_some.mp h
  by_cases hm : (cand0 == str "MUNEZ") = true
  · rw [if_pos hm] at h
    split at h
    · cases h
      assumption
    · exact Option.noConfusion h
  · rw [if_neg hm] at h
    split at h
    · cases h
      assumption
    · exact Option.noConfusion h

lemma apellidoOk_spec {s : List Char} (h : apellidoOk s = true) :
    s ≠ [] ∧ ∀ c ∈ s, (('A' ≤ c ∧ c ≤ 'Z') ∨ c = 'Á' ∨ c = 'É' ∨ c = 'Í' ∨
      c = 'Ó' ∨ c = 'Ú' ∨ c = 'Ñ' ∨ isPySpace c = true) := by
  rw [apellidoOk, Bool.and_eq_true] at h
  obtain ⟨h1, h2⟩ := h
  constructor
  · intro hs
    subst hs
    simp at h1
  · intro c hc
    have hmem := List.all_eq_true.mp h2 c hc
    simp only [apellidoChar, Bool.or_eq_true, Bool.and_eq_true, decide_eq_true_eq,
      beq_iff_eq] at hmem
    tauto

/-- Claim C3, counterexample: the given-names field is stored without any
validation (lines 118-129 have no character-class check), so `parsear_dni`
records `"perez123"` — lowercase letters and digits — as `nombres`; moreover
the surname class `[A-ZÁÉÍÓÚÑ\s]` admits a tab, which is not a space, in
`apellido_paterno`.  Both stored fields violate the claimed
uppercase-letters-and-spaces invariant `upperSpaceOnly`. -/
theorem C3_counterexample :
    parsear_dni (str "PRIMER APELLIDO\nAB\tCD\nPRE NOMBRES\nperez123") ⟨2025, 1, 1⟩ =
      Py.ok { dni := none, apellido_paterno := some (str "AB\tCD"), apellido_materno := none,
              nombres := some (str "perez123"), fecha_nacimiento := none,
              fecha_nacimiento_iso := none, edad := none, sexo := none, sexo_completo := none,
              nombre_completo := some (str "perez123 AB\tCD") } ∧
    upperSpaceOnly (str "AB\tCD") = false ∧
    upperSpaceOnly (str "perez123") = false :=
  ⟨by decide, by decide, by decide⟩

/-- Claim C3 (amended): the two surname fields of a `parsear_dni` record, when
present, are nonempty and consist solely of uppercase Latin letters, the
Spanish accented vowels and enie, and whitespace characters (the class
`[A-ZÁÉÍÓÚÑ\s]`, which admits tabs as well as spaces); a surname candidate
line failing this class is rejected and the field omitted.  The given-names
field is stored without this validation. -/
theorem C3_surname_charset :
    ∀ (texto : List Char) (hoy : Date) (d : Datos),
      parsear_dni texto hoy = Py.ok d →
      ((∀ s, d.apellido_paterno = some s →
          s ≠ [] ∧ ∀ c ∈ s, (('A' ≤ c ∧ c ≤ 'Z') ∨ c = 'Á' ∨ c = 'É' ∨ c = 'Í' ∨
            c = 'Ó' ∨ c = 'Ú' ∨ c = 'Ñ' ∨ isPySpace c = true)) ∧
       (∀ s, d.apellido_materno = some s →
          s ≠ [] ∧ ∀ c ∈ s, (('A' ≤ c ∧ c ≤ 'Z') ∨ c = 'Á' ∨ c = 'É' ∨ c = 'Í' ∨
            c = 'Ó' ∨ c = 'Ú' ∨ c = 'Ñ' ∨ isPySpace c = true))) := by
  intro texto hoy d h
  obtain ⟨-, hap, ham, -, -, -⟩ := parsear_ok_fields h
  constructor
  · intro s hs
    rw [hap] at hs
    exact apellidoOk_spec (extractApPaterno_valid hs)
  · intro s hs
    rw [ham] at hs
    exact apellidoOk_spec (extractApMaterno_valid hs)

/-- Witness for C3 at a text with both surname anchors, including the
catalogued `MUNEZ` to `NUNEZ` substitution. -/
theorem C3_surname_charset_witness :
    parsear_dni (str "PRIMER APELLIDO\nGARCIA\nSEGUNDO APELLIDO\nMUNEZ") ⟨2025, 1, 1⟩ =
      Py.ok { dni := none, apellido_paterno := some (str "GARCIA"),
              apellido_materno := some (str "NUNEZ"), nombres := none,
              fecha_nacimiento := none, fecha_nacimiento_iso := none, edad := none,
              sexo := none, sexo_completo := none, nombre_completo := none } ∧
    (str "GARCIA" ≠ [] ∧ ∀ c ∈ str "GARCIA", (('A' ≤ c ∧ c ≤ 'Z') ∨ c = 'Á' ∨ c = 'É' ∨
      c = 'Í' ∨ c = 'Ó' ∨ c = 'Ú' ∨ c = 'Ñ' ∨ isPySpace c = true)) ∧
    (str "NUNEZ" ≠ [] ∧ ∀ c ∈ str "NUNEZ", (('A' ≤ c ∧ c ≤ 'Z') ∨ c = 'Á' ∨ c = 'É' ∨
      c = 'Í' ∨ c = 'Ó' ∨ c = 'Ú' ∨ c = 'Ñ' ∨ isPySpace c = true)) := by
  have h := C3_surname_charset (str "PRIMER APELLIDO\nGARCIA\nSEGUNDO APELLIDO\nMUNEZ")
    ⟨2025, 1, 1⟩
    { dni := none, apellido_paterno := some (str "GARCIA"),
      apellido_materno := some (str "NUNEZ"), nombres := none,
      fecha_nacimiento := none, fecha_nacimiento_iso := none, edad := none,
      sexo := none, sexo_completo := none, nombre_completo := none } (by decide)
  exact ⟨by decide, h.1 (str "GARCIA") rfl, h.2 (str "NUNEZ") rfl⟩

lemma candidatoFromSplit_ok_some {hoy : Date} {f f1 iso : List Char} {e : Int}
    {parts : List (List Char)}
    (h : candidatoFromSplit hoy f parts = Py.ok (some (f1, iso, e))) :
    f1 = f ∧ ∃ ds ms ys y m dd, parts = [ds, ms, ys] ∧
      pyInt? ys = some y ∧ pyInt? ms = some m ∧ pyInt? ds = some dd ∧
      validDate y m dd = true ∧
      e = ((toDays hoy : Int) - (toDays ⟨y.toNat, m.toNat, dd.toNat⟩ : Int)).fdiv 365 ∧
      0 ≤ e ∧ e ≤ 120 := by
  rcases parts with _ | ⟨ds, _ | ⟨ms, _ | ⟨ys, _ | ⟨z, zs⟩⟩⟩⟩
  · exact Py.noConfusion h
  · exact Py.noConfusion h
  · exact Py.noConfusion h
  · simp only [candidatoFromSplit] at h
    split at h
    · rename_i y m dd hy hm2 hd2
      split at h
      · split at h
        · rename_i hvalid hage
          simp only [Py.ok.injEq, Option.some.injEq, Prod.mk.injEq] at h
          obtain ⟨hf, -, he⟩ := h
          refine ⟨hf.symm, ds, ms, ys, y, m, dd, rfl, hy, hm2, hd2, hvalid, he.symm, ?_, ?_⟩
          · rw [← he]
            exact hage.1
          · rw [← he]
            exact hage.2
        · simp at h
      · simp at h
    · simp at h
  · exact Py.noConfusion h

lemma candidatoFecha_ok_some {hoy : Date} {c f iso : List Char} {e : Int}
    (h : candidatoFecha hoy c = Py.ok (some (f, iso, e))) :
    ∃ ds ms ys y m dd, splitOnChar '/' f = [ds, ms, ys] ∧
      pyInt? ys = some y ∧ pyInt? ms = some m ∧ pyInt? ds = some dd ∧
      validDate y m dd = true ∧
      e = ((toDays hoy : Int) - (toDays ⟨y.toNat, m.toNat, dd.toNat⟩ : Int)).fdiv 365 ∧
      0 ≤ e ∧ e ≤ 120 := by
  unfold candidatoFecha at h
  cases hc : corregir_fecha_ocr c with
  | exn =>
    rw [hc] at h
    exact Py.noConfusion h
  | ok o =>
    rw [hc] at h
    cases o with
    | none => simp at h
    | some f0 =>
      have h1 : candidatoFromSplit hoy f0 (splitOnChar '/' f0) = Py.ok (some (f, iso, e)) := h
      obtain ⟨hf, rest⟩ := candidatoFromSplit_ok_some h1
      subst hf
      exact rest

lemma fechaLoop_ok_some {hoy : Date} {f iso : List Char} {e : Int} :
    ∀ cs, fechaLoop hoy cs = Py.ok (some (f, iso, e)) →
      ∃ c, candidatoFecha hoy c = Py.ok (some (f, iso, e)) := by
  intro cs
  induction cs with
  | nil =>
    intro h
    simp [fechaLoop] at h
  | cons c rest ih =>
    intro h
    rw [fechaLoop] at h
    cases hc : candidatoFecha hoy c with
    | exn =>
      rw [hc] at h
      exact Py.noConfusion h
    | ok o =>
      rw [hc] at h
      cases o with
      | some r =>
        cases h
        exact ⟨c, hc⟩
      | none => exact ih h

/-- Claim C4, counterexample: the code computes the age as
`(hoy - fecha_nac).days // 365`, not as the floor of full calendar years.
On birth date 01/01/2000 evaluated at 2004-12-31 (1826 days later, one day
before the fifth birthday) the record stores age 5, while the number of full
years elapsed is 4. -/
theorem C4_counterexample :
    parsear_dni (str "01012000") ⟨2004, 12, 31⟩ =
      Py.ok { dni := none, apellido_paterno := none, apellido_materno := none,
              nombres := none, fecha_nacimiento := some (str "01/01/2000"),
              fecha_nacimiento_iso := some (str "2000-01-01"), edad := some 5,
              sexo := none, sexo_completo := none, nombre_completo := none } ∧
    fullYearsBetween ⟨2000, 1, 1⟩ ⟨2004, 12, 31⟩ = 4 ∧
    (toDays ⟨2004, 12, 31⟩ : Int) - (toDays ⟨2000, 1, 1⟩ : Int) = 1826 ∧
    ((1826 : Int).fdiv 365 = 5 ∧ (5 : Int) ≠ 4) :=
  ⟨by decide, by decide, by decide, by decide, by decide⟩

/-- Claim C4 (amended): for every accepted birth date and every evaluation
instant, the age stored in the record equals the floor division by 365 of
the number of days between the recorded birth date and that instant,
computed once at acceptance, and it lies in [0, 120].  (This is `days //
365`, which can exceed the floor of full calendar years elapsed because of
accumulated leap days.) -/
theorem C4_age_floor_div365 :
    ∀ (texto : List Char) (hoy : Date) (d : Datos) (e : Int),
      parsear_dni texto hoy = Py.ok d → d.edad = some e →
      (0 ≤ e ∧ e ≤ 120 ∧
       ∃ f ds ms ys y m dd, d.fecha_nacimiento = some f ∧
         splitOnChar '/' f = [ds, ms, ys] ∧
         pyInt? ys = some y ∧ pyInt? ms = some m ∧ pyInt? ds = some dd ∧
         validDate y m dd = true ∧
         e = ((toDays hoy : Int) - (toDays ⟨y.toNat, m.toNat, dd.toNat⟩ : Int)).fdiv 365) := by
  intro texto hoy d e hp he
  obtain ⟨-, -, -, -, -, fres, hloop, hfec, -, hedad⟩ := parsear_ok_fields hp
  rcases fres with _ | ⟨⟨f, iso, e0⟩⟩
  · rw [hedad] at he
    exact Option.noConfusion he
  · rw [hedad] at he
    have he0 : e0 = e := by
      simpa using he
    subst he0
    obtain ⟨c, hc⟩ := fechaLoop_ok_some _ hloop
    obtain ⟨ds, ms, ys, y, m, dd, hsp, hy, hm2, hd2, hvalid, heq, h0, h120⟩ :=
      candidatoFecha_ok_some hc
    exact ⟨h0, h120, f, ds, ms, ys, y, m, dd, by simpa using hfec, hsp, hy, hm2, hd2,
      hvalid, heq⟩

/-- Witness for C4 at birth date 15/06/1990 evaluated at 2025-10-12
(12903 days, so age 35). -/
theorem C4_age_floor_div365_witness :
    parsear_dni (str "15061990") ⟨2025, 10, 12⟩ =
      Py.ok { dni := none, apellido_paterno := none, apellido_materno := none,
              nombres := none, fecha_nacimiento := some (str "15/06/1990"),
              fecha_nacimiento_iso := some (str "1990-06-15"), edad := some 35,
              sexo := none, sexo_completo := none, nombre_completo := none } ∧
    (0 ≤ (35 : Int) ∧ (35 : Int) ≤ 120 ∧
     ∃ f ds ms ys y m dd,
       ({ dni := none, apellido_paterno := none, apellido_materno := none,
          nombres := none, fecha_nacimiento := some (str "15/06/1990"),
          fecha_nacimiento_iso := some (str "1990-06-15"), edad := some 35,
          sexo := none, sexo_completo := none,
          nombre_completo := none } : Datos).fecha_nacimiento = some f ∧
       splitOnChar '/' f = [ds, ms, ys] ∧
       pyInt? ys = some y ∧ pyInt? ms = some m ∧ pyInt? ds = some dd ∧
       validDate y m dd = true ∧
       (35 : Int) = ((toDays ⟨2025, 10, 12⟩ : Int) -
         (toDays ⟨y.toNat, m.toNat, dd.toNat⟩ : Int)).fdiv 365) := by
  have h := C4_age_floor_div365 (str "15061990") ⟨2025, 10, 12⟩
    { dni := none, apellido_paterno := none, apellido_materno := none,
      nombres := none, fecha_nacimiento := some (str "15/06/1990"),
      fecha_nacimiento_iso := some (str "1990-06-15"), edad := some 35,
      sexo := none, sexo_completo := none, nombre_completo := none } 35
    (by decide) rfl
  exact ⟨by decide, h⟩

lemma matchCI_dni {s r : List Char} :
    matchCI (str "DNI") s = some r ↔
      ∃ c1 c2 c3, s = c1 :: c2 :: c3 :: r ∧ (c1 = 'D' ∨ c1 = 'd') ∧
        (c2 = 'N' ∨ c2 = 'n') ∧ (c3 = 'I' ∨ c3 = 'i') := by
  constructor
  · intro h
    rcases s with _ | ⟨c1, _ | ⟨c2, _ | ⟨c3, rest⟩⟩⟩
    · simp [matchCI] at h
    · simp only [str, matchCI] at h
      split at h
      · exact Option.noConfusion h
      · exact Option.noConfusion h
    · simp only [str, matchCI] at h
      split at h
      · split at h
        · exact Option.noConfusion h
        · exact Option.noConfusion h
      · exact Option.noConfusion h
    · simp only [str, matchCI] at h
      split at h
      · split at h
        · split at h
          · rename_i hb1 hb2 hb3
            cases h
            refine ⟨c1, c2, c3, rfl, ?_, ?_, ?_⟩
            · rcases Bool.or_eq_true .. |>.mp hb1 with hx | hx
              · exact Or.inl (beq_iff_eq.mp hx)
              · exact Or.inr (beq_iff_eq.mp hx)
            · rcases Bool.or_eq_true .. |>.mp hb2 with hx | hx
              · exact Or.inl (beq_iff_eq.mp hx)
              · exact Or.inr (beq_iff_eq.mp hx)
            · rcases Bool.or_eq_true .. |>.mp hb3 with hx | hx
              · exact Or.inl (beq_iff_eq.mp hx)
              · exact Or.inr (beq_iff_eq.mp hx)
          · exact Option.noConfusion h
        · exact Option.noConfusion h
      · exact Option.noConfusion h
  · rintro ⟨c1, c2, c3, rfl, h1, h2, h3⟩
    have hb1 : (c1 == 'D' || c1 == 'D'.toLower) = true := by
      rcases h1 with rfl | rfl <;> decide
    have hb2 : (c2 == 'N' || c2 == 'N'.toLower) = true := by
      rcases h2 with rfl | rfl <;> decide
    have hb3 : (c3 == 'I' || c3 == 'I'.toLower) = true := by
      rcases h3 with rfl | rfl <;> decide
    simp only [str, matchCI, hb1, hb2, hb3, if_true]

lemma tryDni_eq_some {s v : List Char} :
    tryDni s = some v ↔
      ∃ c1 c2 c3 w b, s = c1 :: c2 :: c3 :: (w ++ (v ++ b)) ∧
        (c1 = 'D' ∨ c1 = 'd') ∧ (c2 = 'N' ∨ c2 = 'n') ∧ (c3 = 'I' ∨ c3 = 'i') ∧
        (∀ c ∈ w, isPySpace c = true) ∧ v.length = 8 ∧ (∀ c ∈ v, c.isDigit = true) := by
  unfold tryDni
  constructor
  · intro h
    obtain ⟨r, hm, hr⟩ := Option.bind_eq_some.mp h
    obtain ⟨c1, c2, c3, rfl, h1, h2, h3⟩ := matchCI_dni.mp hm
    by_cases hc : (((r.dropWhile isPySpace).take 8).length == 8 &&
        ((r.dropWhile isPySpace).take 8).all Char.isDigit) = true
    · rw [if_pos hc] at hr
      cases hr
      rcases Bool.and_eq_true .. |>.mp hc with ⟨hl, hd⟩
      have hlen : ((r.dropWhile isPySpace).take 8).length = 8 := by rwa [beq_iff_eq] at hl
      refine ⟨c1, c2, c3, r.takeWhile isPySpace, (r.dropWhile isPySpace).drop 8, ?_, h1, h2, h3,
        ?_, hlen, ?_⟩
      · rw [List.take_append_drop, List.takeWhile_append_dropWhile]
      · exact fun c hcm => List.mem_takeWhile_imp hcm
      · exact fun c hcm => List.all_eq_true.mp hd c hcm
    · rw [if_neg hc] at hr
      exact Option.noConfusion hr
  · rintro ⟨c1, c2, c3, w, b, rfl, h1, h2, h3, hw, hlen, hdig⟩
    have hm : matchCI (str "DNI") (c1 :: c2 :: c3 :: (w ++ (v ++ b))) = some (w ++ (v ++ b)) :=
      matchCI_dni.mpr ⟨c1, c2, c3, rfl, h1, h2, h3⟩
    rw [hm, Option.some_bind]
    have hdw : (w ++ (v ++ b)).dropWhile isPySpace = v ++ b := by
      rw [dropWhile_append_of_all (v ++ b) hw]
      rcases v with _ | ⟨vc, vrest⟩
      · simp at hlen
      · exact dropWhile_cons_of_neg _ (digit_not_space (hdig vc (by simp)))
    rw [hdw, take_append_of_length b hlen]
    rw [if_pos (by rw [hlen]; simp [List.all_eq_true]; exact fun c hc => hdig c hc)]

/-- Claim C5, counterexample: on `"DNI123456789"` — no whitespace after
`DNI`, and nine digits — the extractor still recognizes and captures
`"12345678"`, while the claim's strict reading (whitespace required, exactly
8 digits) recognizes nothing. -/
theorem C5_counterexample :
    dniSearchRaw (str "DNI123456789") = some (str "12345678") ∧
    specDniStrict (str "DNI123456789") = false :=
  ⟨by decide, by decide⟩

/-- Claim C5 (amended): the document-number extractor recognizes a value
exactly when the text contains `DNI` (case-insensitively) followed by a
possibly empty run of whitespace and at least 8 digits; the captured
candidate is such an 8-digit group (the first 8 digits of a longer run —
a ninth digit may follow). -/
theorem C5_dni_recognition :
    (∀ t : List Char, (dniSearchRaw t).isSome = true ↔
       ∃ a c1 c2 c3 w v b, t = a ++ (c1 :: c2 :: c3 :: (w ++ (v ++ b))) ∧
         (c1 = 'D' ∨ c1 = 'd') ∧ (c2 = 'N' ∨ c2 = 'n') ∧ (c3 = 'I' ∨ c3 = 'i') ∧
         (∀ c ∈ w, isPySpace c = true) ∧ v.length = 8 ∧ (∀ c ∈ v, c.isDigit = true)) ∧
    (∀ t v, dniSearchRaw t = some v →
       v.length = 8 ∧ (∀ c ∈ v, c.isDigit = true) ∧
       ∃ a c1 c2 c3 w b, t = a ++ (c1 :: c2 :: c3 :: (w ++ (v ++ b))) ∧
         (c1 = 'D' ∨ c1 = 'd') ∧ (c2 = 'N' ∨ c2 = 'n') ∧ (c3 = 'I' ∨ c3 = 'i') ∧
         (∀ c ∈ w, isPySpace c = true)) := by
  constructor
  · intro t
    constructor
    · intro h
      obtain ⟨v, hv⟩ := Option.isSome_iff_exists.mp h
      obtain ⟨a, b0, rfl, hb⟩ := scanOpt_eq_some_exists hv
      obtain ⟨c1, c2, c3, w, b, rfl, h1, h2, h3, hw, hlen, hdig⟩ := tryDni_eq_some.mp hb
      exact ⟨a, c1, c2, c3, w, v, b, rfl, h1, h2, h3, hw, hlen, hdig⟩
    · rintro ⟨a, c1, c2, c3, w, v, b, rfl, h1, h2, h3, hw, hlen, hdig⟩
      apply scanOpt_isSome_append a (c1 :: c2 :: c3 :: (w ++ (v ++ b)))
      rw [Option.isSome_iff_exists]
      exact ⟨v, tryDni_eq_some.mpr ⟨c1, c2, c3, w, b, rfl, h1, h2, h3, hw, hlen, hdig⟩⟩
  · intro t v hv
    obtain ⟨a, b0, rfl, hb⟩ := scanOpt_eq_some_exists hv
    obtain ⟨c1, c2, c3, w, b, rfl, h1, h2, h3, hw, hlen, hdig⟩ := tryDni_eq_some.mp hb
    exact ⟨hlen, hdig, a, c1, c2, c3, w, b, rfl, h1, h2, h3, hw⟩

/-- Witness for C5: the recognition applied at `"dni\n72345678"` (lower case
anchor, newline whitespace). -/
theorem C5_dni_recognition_witness :
    dniSearchRaw (str "dni\n72345678") = some (str "72345678") ∧
    ((str "72345678").length = 8 ∧ (∀ c ∈ str "72345678", c.isDigit = true) ∧
     ∃ a c1 c2 c3 w b, str "dni\n72345678" = a ++ (c1 :: c2 :: c3 :: (w ++ (str "72345678" ++ b))) ∧
       (c1 = 'D' ∨ c1 = 'd') ∧ (c2 = 'N' ∨ c2 = 'n') ∧ (c3 = 'I' ∨ c3 = 'i') ∧
       (∀ c ∈ w, isPySpace c = true)) :=
  ⟨by decide,
   C5_dni_recognition.2 (str "dni\n72345678") (str "72345678") (by decide)⟩

lemma length_dropWhile_le' {p : Char → Bool} : ∀ l : List Char, (l.dropWhile p).length ≤ l.length := by
  intro l
  induction l with
  | nil => exact Nat.le_refl 0
  | cons c rest ih =>
    rw [List.dropWhile_cons]
    split
    · exact Nat.le_succ_of_le ih
    · exact Nat.le_refl _

lemma findall8Go_fuel : ∀ f g p s, s.length < f → s.length < g →
    findall8Go f p s = findall8Go g p s := by
  intro f
  induction f with
  | zero =>
    intro g p s hf hg
    omega
  | succ f ih =>
    intro g p s hf hg
    cases g with
    | zero => omega
    | succ g =>
      cases s with
      | nil => rfl
      | cons c rest =>
        simp only [findall8Go]
        split
        · have hlen : ((c :: rest).drop 8).length < f ∧ ((c :: rest).drop 8).length < g := by
            rw [List.length_drop]
            simp only [List.length_cons] at hf hg ⊢
            omega
          rw [ih g true _ hlen.1 hlen.2]
        · have hlen : rest.length < f ∧ rest.length < g := by
            simp only [List.length_cons] at hf hg
            omega
          rw [ih g (isWordChar c) rest hlen.1 hlen.2]

lemma runs8Go_fuel : ∀ f g p s, s.length < f → s.length < g →
    runs8Go f p s = runs8Go g p s := by
  intro f
  induction f with
  | zero =>
    intro g p s hf hg
    omega
  | succ f ih =>
    intro g p s hf hg
    cases g with
    | zero => omega
    | succ g =>
      cases s with
      | nil => rfl
      | cons c rest =>
        simp only [runs8Go]
        split
        · have hlen : (rest.dropWhile Char.isDigit).length < f ∧
              (rest.dropWhile Char.isDigit).length < g := by
            have := length_dropWhile_le' (p := Char.isDigit) rest
            simp only [List.length_cons] at hf hg
            omega
          rw [ih g true _ hlen.1 hlen.2]
        · have hlen : rest.length < f ∧ rest.length < g := by
            simp only [List.length_cons] at hf hg
            omega
          rw [ih g (isWordChar c) rest hlen.1 hlen.2]

lemma findall8Go_digit_run : ∀ (ds : List Char) (f : Nat) (r : List Char),
    (∀ x ∈ ds, x.isDigit = true) → ds.length + r.length < f →
    findall8Go f true (ds ++ r) = findall8Go (f - ds.length) true r := by
  intro ds
  induction ds with
  | nil =>
    intro f r h hb
    simp
  | cons d ds ih =>
    intro f r h hb
    cases f with
    | zero => omega
    | succ f =>
      have hd : d.isDigit = true := h d (by simp)
      simp only [List.cons_append, findall8Go, Bool.not_true, Bool.false_and, Bool.false_eq_true,
        if_false]
      rw [digit_word hd]
      have harith : f + 1 - (d :: ds).length = f - ds.length := by
        simp only [List.length_cons]
        omega
      rw [harith]
      have hb2 : ds.length + r.length < f := by
        simp only [List.length_cons] at hb
        omega
      exact ih f r (fun x hx => h x (by simp [hx])) hb2

lemma findall8_head_cond_false {p : Bool} {c : Char} {rest : List Char} (hdig : c.isDigit = true)
    (hB : ¬(p = false ∧ (c :: rest.takeWhile Char.isDigit).length = 8 ∧
        noWordAhead (rest.dropWhile Char.isDigit) = true)) :
    (!p && (((c :: rest).take 8).length == 8) && ((c :: rest).take 8).all Char.isDigit &&
      noWordAhead ((c :: rest).drop 8)) = false := by
  have hdecomp : c :: rest =
      (c :: rest.takeWhile Char.isDigit) ++ rest.dropWhile Char.isDigit := by
    rw [List.cons_append, List.takeWhile_append_dropWhile]
  cases p with
  | true => simp
  | false =>
    simp only [Bool.not_false, Bool.true_and]
    rcases Nat.lt_trichotomy (c :: rest.takeWhile Char.isDigit).length 8 with hlt | heq8 | hgt
    · rcases hr1 : rest.dropWhile Char.isDigit with _ | ⟨r1, rs⟩
      · have hle : (c :: rest).length ≤ 8 := by
          rw [hdecomp, hr1]
          simpa using Nat.le_of_lt hlt
        have htake : (c :: rest).take 8 = c :: rest := List.take_of_length_le hle
        have hne8 : ((c :: rest).take 8).length ≠ 8 := by
          rw [htake, hdecomp, hr1]
          simpa using Nat.ne_of_lt hlt
        have hfa : (((c :: rest).take 8).length == 8) = false := by
          simpa using hne8
        rw [hfa, Bool.false_and, Bool.false_and]
      · have hr1nd : Char.isDigit r1 = false := dropWhile_eq_cons_not hr1
        have htake : (c :: rest).take 8 =
            (c :: rest.takeWhile Char.isDigit) ++ (r1 :: rs).take (8 - (c :: rest.takeWhile Char.isDigit).length) := by
          rw [hdecomp, hr1, List.take_append_eq_append_take,
            List.take_of_length_le (Nat.le_of_lt hlt)]
        have h81 : 8 - (c :: rest.takeWhile Char.isDigit).length =
            (8 - (c :: rest.takeWhile Char.isDigit).length - 1) + 1 := by
          simp only [List.length_cons] at hlt ⊢
          omega
        have hall : ((c :: rest).take 8).all Char.isDigit = false := by
          rw [htake, h81, List.take_succ_cons]
          simp [List.all_append, List.all_cons, hr1nd]
        rw [hall, Bool.and_false, Bool.false_and]
    · have hnw : noWordAhead (rest.dropWhile Char.isDigit) = false := by
        cases hx : noWordAhead (rest.dropWhile Char.isDigit) with
        | false => rfl
        | true => exact absurd ⟨rfl, heq8, hx⟩ hB
      have hdrop : (c :: rest).drop 8 = rest.dropWhile Char.isDigit := by
        rw [hdecomp]
        exact drop_append_of_length _ heq8
      rw [hdrop, hnw]
      simp
    · have hdrop : (c :: rest).drop 8 =
          (c :: rest.takeWhile Char.isDigit).drop 8 ++ rest.dropWhile Char.isDigit := by
        rw [hdecomp, List.drop_append_eq_append_drop,
          Nat.sub_eq_zero_of_le (Nat.le_of_lt hgt), List.drop_zero]
      have hne : (c :: rest.takeWhile Char.isDigit).drop 8 ≠ [] := by
        intro hnil
        have := congrArg List.length hnil
        simp only [List.length_drop, List.length_nil] at this
        omega
      rcases he : (c :: rest.takeWhile Char.isDigit).drop 8 with _ | ⟨x, xs⟩
      · exact absurd he hne
      · have hxmem : x ∈ c :: rest.takeWhile Char.isDigit := by
          apply List.mem_of_mem_drop (n := 8)
          rw [he]
          simp
        have hx : x.isDigit = true := by
          rcases List.mem_cons.mp hxmem with rfl | hxm
          · exact hdig
          · exact List.mem_takeWhile_imp hxm
        have hnw : noWordAhead ((c :: rest).drop 8) = false := by
          rw [hdrop, he]
          simp [noWordAhead, digit_word hx]
        rw [hnw, Bool.and_false]

lemma findall8Go_eq_runs8Go : ∀ (f : Nat) (p : Bool) (s : List Char), s.length < f →
    findall8Go f p s = runs8Go f p s := by
  intro f
  induction f with
  | zero =>
    intro p s h
    omega
  | succ f ih =>
    intro p s hs
    cases s with
    | nil => rfl
    | cons c rest =>
      simp only [List.length_cons] at hs
      by_cases hdig : c.isDigit = true
      · have hdecomp : c :: rest =
            (c :: rest.takeWhile Char.isDigit) ++ rest.dropWhile Char.isDigit := by
          rw [List.cons_append, List.takeWhile_append_dropWhile]
        have hrun_digits : ∀ x ∈ c :: rest.takeWhile Char.isDigit, x.isDigit = true := by
          intro x hx
          rcases List.mem_cons.mp hx with rfl | hx
          · exact hdig
          · exact List.mem_takeWhile_imp hx
        have hlensum : (c :: rest.takeWhile Char.isDigit).length +
            (rest.dropWhile Char.isDigit).length = rest.length + 1 := by
          have hcg := congrArg List.length hdecomp
          simp only [List.length_append, List.length_cons] at hcg
          simp only [List.length_cons]
          omega
        by_cases hA : p = false ∧ (c :: rest.takeWhile Char.isDigit).length = 8 ∧
            noWordAhead (rest.dropWhile Char.isDigit) = true
        · obtain ⟨hp, hlen8, hnw⟩ := hA
          subst hp
          have htake : (c :: rest).take 8 = c :: rest.takeWhile Char.isDigit := by
            rw [hdecomp]
            exact take_append_of_length _ hlen8
          have hdrop : (c :: rest).drop 8 = rest.dropWhile Char.isDigit := by
            rw [hdecomp]
            exact drop_append_of_length _ hlen8
          simp only [findall8Go, runs8Go, htake, hdrop]
          rw [if_pos hdig]
          have hcnd : (!false && ((c :: rest.takeWhile Char.isDigit).length == 8) &&
              (c :: rest.takeWhile Char.isDigit).all Char.isDigit &&
              noWordAhead (rest.dropWhile Char.isDigit)) = true := by
            rw [hlen8, hnw]
            simp [List.all_eq_true, hrun_digits]
          rw [if_pos hcnd]
          have hemit : (!false && ((c :: rest.takeWhile Char.isDigit).length == 8) &&
              noWordAhead (rest.dropWhile Char.isDigit)) = true := by
            rw [hlen8, hnw]
            simp
          rw [if_pos hemit]
          have hrest1 : (rest.dropWhile Char.isDigit).length < f := by
            have := length_dropWhile_le' (p := Char.isDigit) rest
            omega
          rw [ih true _ hrest1]
          rfl
        · have hcond := findall8_head_cond_false hdig hA
          simp only [findall8Go, runs8Go]
          rw [if_neg (by rw [hcond]; exact Bool.noConfusion), if_pos hdig]
          have hemit : (!p && ((c :: rest.takeWhile Char.isDigit).length == 8) &&
              noWordAhead (rest.dropWhile Char.isDigit)) = false := by
            cases hp : p with
            | true => simp
            | false =>
              simp only [Bool.not_false, Bool.true_and]
              by_cases hl8 : (c :: rest.takeWhile Char.isDigit).length = 8
              · have hnw : noWordAhead (rest.dropWhile Char.isDigit) = false := by
                  cases hx : noWordAhead (rest.dropWhile Char.isDigit) with
                  | false => rfl
                  | true => exact absurd ⟨hp, hl8, hx⟩ hA
                rw [hnw, Bool.and_false]
              · have hfa : ((c :: rest.takeWhile Char.isDigit).length == 8) = false := by
                  simpa using hl8
                rw [hfa, Bool.false_and]
          rw [if_neg (by rw [hemit]; exact Bool.noConfusion)]
          rw [digit_word hdig]
          have hwalk := findall8Go_digit_run (rest.takeWhile Char.isDigit) f
            (rest.dropWhile Char.isDigit)
            (fun x hx => List.mem_takeWhile_imp hx)
            (by
              simp only [List.length_cons] at hlensum
              omega)
          rw [List.takeWhile_append_dropWhile] at hwalk
          rw [hwalk]
          have hb1 : (rest.dropWhile Char.isDigit).length < f - (rest.takeWhile Char.isDigit).length := by
            simp only [List.length_cons] at hlensum
            omega
          have hb2 : (rest.dropWhile Char.isDigit).length < f := by
            have := length_dropWhile_le' (p := Char.isDigit) rest
            omega
          rw [findall8Go_fuel _ f true _ hb1 hb2]
          rw [ih true _ hb2]
          rfl
      · have hdf : c.isDigit = false := by
          cases hx : c.isDigit with
          | false => rfl
          | true => exact absurd hx hdig
        have hall : ((c :: rest).take 8).all Char.isDigit = false := by
          rw [List.take_succ_cons]
          simp [List.all_cons, hdf]
        simp only [findall8Go, runs8Go]
        rw [if_neg (by rw [hall, Bool.and_false, Bool.false_and]; exact Bool.noConfusion)]
        rw [if_neg (by rw [hdf]; exact Bool.noConfusion)]
        exact ih (isWordChar c) rest (by omega)

lemma findall8_eq_runs8 (t : List Char) : findall8 t = runs8 t :=
  findall8Go_eq_runs8Go (t.length + 1) false t (Nat.lt_succ_self _)

lemma findall8Go_mem : ∀ (f : Nat) (p : Bool) (s : List Char) (l : List Char),
    l ∈ findall8Go f p s → l.length = 8 ∧ ∀ c ∈ l, c.isDigit = true := by
  intro f
  induction f with
  | zero =>
    intro p s l hl
    simp [findall8Go] at hl
  | succ f ih =>
    intro p s l hl
    cases s with
    | nil => simp [findall8Go] at hl
    | cons c rest =>
      simp only [findall8Go] at hl
      split at hl
      · rename_i hcnd
        rcases Bool.and_eq_true .. |>.mp hcnd with ⟨hcnd1, hnw⟩
        rcases Bool.and_eq_true .. |>.mp hcnd1 with ⟨hcnd2, hall⟩
        rcases Bool.and_eq_true .. |>.mp hcnd2 with ⟨-, hlen⟩
        rcases List.mem_cons.mp hl with rfl | hl
        · exact ⟨by rwa [beq_iff_eq] at hlen, fun x hx => List.all_eq_true.mp hall x hx⟩
        · exact ih true _ l hl
      · exact ih (isWordChar c) rest l hl

lemma splitOnChar_no_sep {sep : Char} : ∀ {l : List Char}, (∀ c ∈ l, (c == sep) = false) →
    splitOnChar sep l = [l] := by
  intro l
  induction l with
  | nil => intro h; rfl
  | cons c rest ih =>
    intro h
    have hc : (c == sep) = false := h c (by simp)
    rw [splitOnChar, if_neg (by rw [hc]; exact Bool.noConfusion)]
    rw [ih (fun x hx => h x (by simp [hx]))]

lemma splitOnChar_append_sep {sep : Char} : ∀ {l r : List Char},
    (∀ c ∈ l, (c == sep) = false) →
    splitOnChar sep (l ++ sep :: r) = l :: splitOnChar sep r := by
  intro l
  induction l with
  | nil =>
    intro r h
    rw [List.nil_append, splitOnChar, if_pos (by simp)]
  | cons c rest ih =>
    intro r h
    have hc : (c == sep) = false := h c (by simp)
    rw [List.cons_append, splitOnChar, if_neg (by rw [hc]; exact Bool.noConfusion)]
    rw [ih (fun x hx => h x (by simp [hx]))]

lemma digit_ne_slash {c : Char} (h : c.isDigit = true) : (c == '/') = false :=
  digit_ne h (by decide)

lemma specDayFix_digits {a b : Char} (ha : a.isDigit = true) (hb : b.isDigit = true) :
    ∀ x ∈ specDayFix a b, x.isDigit = true := by
  unfold specDayFix
  exact digits_of_ite (digits_pair (by decide) hb) (digits_pair ha hb)

lemma specMonFix_digits {c d : Char} (hc : c.isDigit = true) (hd : d.isDigit = true) :
    ∀ x ∈ specMonFix c d, x.isDigit = true := by
  unfold specMonFix
  exact digits_of_ite (by decide) (digits_pair hc hd)

lemma specYearFix_digits {e f g h : Char} (he : e.isDigit = true) (hf : f.isDigit = true)
    (hg : g.isDigit = true) (hh : h.isDigit = true) :
    ∀ x ∈ specYearFix e f g h, x.isDigit = true := by
  unfold specYearFix
  exact digits_of_ite (by decide) (digits_of_ite (by decide) (digits_quad he hf hg hh))

lemma specDateCorrector_shape {a b c d e f g h : Char}
    (ha : a.isDigit = true) (hb : b.isDigit = true) (hc : c.isDigit = true)
    (hd : d.isDigit = true) (he : e.isDigit = true) (hf : f.isDigit = true)
    (hg : g.isDigit = true) (hh : h.isDigit = true) {out : List Char}
    (hout : specDateCorrector [a, b, c, d, e, f, g, h] = some out) :
    ∃ day mon yr, out = (day ++ '/' :: mon) ++ '/' :: yr ∧
      (∀ x ∈ day, x.isDigit = true) ∧ (∀ x ∈ mon, x.isDigit = true) ∧
      (∀ x ∈ yr, x.isDigit = true) := by
  simp only [specDateCorrector] at hout
  split at hout
  · cases hout
    exact ⟨specDayFix a b, specMonFix c d, specYearFix e f g h, rfl,
      specDayFix_digits ha hb, specMonFix_digits hc hd, specYearFix_digits he hf hg hh⟩
  · exact Option.noConfusion hout

lemma candidatoFromSplit_triple_ne_exn (hoy : Date) (f0 ds ms ys : List Char) :
    candidatoFromSplit hoy f0 [ds, ms, ys] ≠ Py.exn := by
  intro h
  simp only [candidatoFromSplit] at h
  split at h
  · split at h
    · split at h
      · exact Py.noConfusion h
      · exact Py.noConfusion h
    · exact Py.noConfusion h
  · exact Py.noConfusion h

lemma candidatoFecha_digits_ne_exn {hoy : Date} {c : List Char}
    (hl : c.length = 8) (hd : ∀ x ∈ c, x.isDigit = true) :
    candidatoFecha hoy c ≠ Py.exn := by
  obtain ⟨a, b, c3, d, e, f, g, h, rfl⟩ := length_eight_shape hl
  intro hx
  unfold candidatoFecha at hx
  rw [corregir_eq_spec_of_digits (hd a (by simp)) (hd b (by simp)) (hd c3 (by simp))
    (hd d (by simp)) (hd e (by simp)) (hd f (by simp)) (hd g (by simp)) (hd h (by simp))] at hx
  cases hsp : specDateCorrector [a, b, c3, d, e, f, g, h] with
  | none =>
    rw [hsp] at hx
    exact Py.noConfusion hx
  | some out =>
    rw [hsp] at hx
    have hx2 : candidatoFromSplit hoy out (splitOnChar '/' out) = Py.exn := hx
    obtain ⟨day, mon, yr, rfl, hday, hmon, hyr⟩ := specDateCorrector_shape (hd a (by simp))
      (hd b (by simp)) (hd c3 (by simp)) (hd d (by simp)) (hd e (by simp)) (hd f (by simp))
      (hd g (by simp)) (hd h (by simp)) hsp
    rw [List.append_assoc, List.cons_append] at hx2
    rw [splitOnChar_append_sep (fun x hx3 => digit_ne_slash (hday x hx3))] at hx2
    rw [splitOnChar_append_sep (fun x hx3 => digit_ne_slash (hmon x hx3))] at hx2
    rw [splitOnChar_no_sep (fun x hx3 => digit_ne_slash (hyr x hx3))] at hx2
    exact candidatoFromSplit_triple_ne_exn hoy _ day mon yr hx2

lemma fechaLoop_eq_find {hoy : Date} : ∀ cs : List (List Char),
    (∀ c ∈ cs, candidatoFecha hoy c ≠ Py.exn) →
    ∃ fres, fechaLoop hoy cs = Py.ok fres ∧
      fres.map (fun x => x.1) = (cs.find? (aceptaFecha hoy)).bind (fechaDe hoy) := by
  intro cs
  induction cs with
  | nil =>
    intro h
    exact ⟨none, rfl, rfl⟩
  | cons c rest ih =>
    intro h
    cases hcf : candidatoFecha hoy c with
    | exn => exact absurd hcf (h c (by simp))
    | ok o =>
      cases o with
      | some r =>
        have hacc : aceptaFecha hoy c = true := by
          unfold aceptaFecha
          rw [hcf]
        refine ⟨some r, ?_, ?_⟩
        · rw [fechaLoop, hcf]
        · rw [List.find?_cons_of_pos _ hacc]
          unfold fechaDe
          rw [Option.some_bind, hcf]
          rfl
      | none =>
        obtain ⟨fres, h1, h2⟩ := ih (fun x hx => h x (by simp [hx]))
        have hacc : aceptaFecha hoy c = false := by
          unfold aceptaFecha
          rw [hcf]
        refine ⟨fres, ?_, ?_⟩
        · rw [fechaLoop, hcf]
          exact h1
        · rw [List.find?_cons_of_neg _ (by simp [hacc])]
          exact h2

/-- Claim C2, counterexample: `"05112002"` is a maximal run of exactly 8
digits of the text `"X05112002"` and corrects to the valid date 05/11/2002
with an in-range age, yet the parser records no birth date, because the scan
`\b\d{8}\b` requires a word boundary and the run is preceded by the letter
`X`.  The claimed enumeration of all maximal 8-digit runs is therefore not
what the code does. -/
theorem C2_counterexample :
    maxRuns8 (str "X05112002") = [str "05112002"] ∧
    corregir_fecha_ocr (str "05112002") = Py.ok (some (str "05/11/2002")) ∧
    aceptaFecha ⟨2025, 9, 1⟩ (str "05112002") = true ∧
    parsear_dni (str "X05112002") ⟨2025, 9, 1⟩ =
      Py.ok { dni := none, apellido_paterno := none, apellido_materno := none,
              nombres := none, fecha_nacimiento := none, fecha_nacimiento_iso := none,
              edad := none, sexo := none, sexo_completo := none, nombre_completo := none } :=
  ⟨by decide, by decide, by decide, by decide⟩

/-- Claim C2 (amended): the birth-date extractor enumerates, in order of
appearance, the maximal runs of exactly 8 digits that are word-boundary
delimited (not adjacent to a letter, digit or underscore; `runs8`), applies
the Date Corrector to each, and the recorded birth date is the value of the
first candidate accepted by the calendar-validity and age checks
(`aceptaFecha`), candidates failing them being skipped; when no candidate
qualifies the birth-date key is absent. -/
theorem C2_birth_date_enumeration :
    ∀ (texto : List Char) (hoy : Date) (d : Datos),
      parsear_dni texto hoy = Py.ok d →
      d.fecha_nacimiento = ((runs8 texto).find? (aceptaFecha hoy)).bind (fechaDe hoy) := by
  intro texto hoy d h
  obtain ⟨-, -, -, -, -, fres, hloop, hfec, -, -⟩ := parsear_ok_fields h
  have hdig : ∀ c ∈ findall8 texto, candidatoFecha hoy c ≠ Py.exn := by
    intro c hc
    obtain ⟨hl, hd⟩ := findall8Go_mem _ _ _ c hc
    exact candidatoFecha_digits_ne_exn hl hd
  obtain ⟨fres2, hloop2, heq⟩ := fechaLoop_eq_find (findall8 texto) hdig
  rw [hloop] at hloop2
  cases hloop2
  rw [hfec, ← findall8_eq_runs8]
  exact heq

/-- Witness for C2 at a text whose 8-digit run is boundary-delimited and
accepted. -/
theorem C2_birth_date_enumeration_witness :
    parsear_dni (str "a 05112002") ⟨2025, 3, 15⟩ =
      Py.ok { dni := none, apellido_paterno := none, apellido_materno := none,
              nombres := none, fecha_nacimiento := some (str "05/11/2002"),
              fecha_nacimiento_iso := some (str "2002-11-05"), edad := some 22,
              sexo := none, sexo_completo := none, nombre_completo := none } ∧
    ({ dni := none, apellido_paterno := none, apellido_materno := none,
       nombres := none, fecha_nacimiento := some (str "05/11/2002"),
       fecha_nacimiento_iso := some (str "2002-11-05"), edad := some 22,
       sexo := none, sexo_completo := none,
       nombre_completo := none } : Datos).fecha_nacimiento =
      ((runs8 (str "a 05112002")).find? (aceptaFecha ⟨2025, 3, 15⟩)).bind
        (fechaDe ⟨2025, 3, 15⟩) := by
  have h := C2_birth_date_enumeration (str "a 05112002") ⟨2025, 3, 15⟩
    { dni := none, apellido_paterno := none, apellido_materno := none,
      nombres := none, fecha_nacimiento := some (str "05/11/2002"),
      fecha_nacimiento_iso := some (str "2002-11-05"), edad := some 22,
      sexo := none, sexo_completo := none, nombre_completo := none } (by decide)
  exact ⟨by decide, h⟩
